import Mathlib

/-!
Verification development for the semantic-resolution core of the solang
compiler (src/sema/contracts.rs): base-contract graph resolution,
inheritance linearization (visit_bases / is_base), storage layout,
override resolution (layout_contract), base-constructor argument
propagation (collect_base_args / check_base_args), and the phase gating
in resolve / resolve_bodies.

The embedding is shallow: contracts and functions live in flat arenas
addressed by integer index, exactly as in the source; Rust HashMaps
appear as association lists (iteration order is unspecified in Rust, so
a fixed list order is one admissible order); BigInt storage-slot cursors
appear as Nat (slots are non-negative throughout); diagnostic message
strings appear as a structured kind carrying the same distinguishing
payload.  The unbounded Rust recursions (visit_bases, is_base,
collect_base_args) are embedded with an explicit fuel parameter that is
consumed on every step of the recursion tree; with sufficient fuel the
fueled function computes exactly the value of the Rust recursion, and
running out of fuel yields none.
-/

namespace Solang

/-- Source location: file number and position (pt::Loc, with the file
number first as in the source, where contract.loc.0 is the file). -/
structure Loc where
  file : Nat
  pos : Nat
deriving DecidableEq

/-- Compilation target: one alignment-sensitive target (Solana) with a
non-zero first storage offset; all other targets behave alike here. -/
inductive Target where
  | Solana
  | Other
deriving DecidableEq

/-- pt::ContractTy -/
inductive ContractTy where
  | Contract
  | Abstract
  | Interface
  | Library
deriving DecidableEq

/-- pt::FunctionTy -/
inductive FunctionTy where
  | Constructor
  | Fallback
  | Receive
  | Function
  | Modifier
deriving DecidableEq

/-- Modelled from the spec: the storage metrics of a resolved type,
external to the core source (ast::Type::align_of, storage_slots,
is_dynamic live outside src/sema/contracts.rs).  A type is reduced to
its required alignment, its storage footprint in slots, and whether it
is unbounded-size. -/
structure Ty where
  align : Nat
  storage_slots : Nat
  dynamic : Bool
deriving DecidableEq

/-- A contract state variable: only the fields the layout engine reads. -/
structure Variable where
  constant : Bool
  ty : Ty
deriving DecidableEq

/-- ast::Layout: one storage slot assignment. -/
structure Layout where
  slot : Nat
  contract_no : Nat
  var_no : Nat
  ty : Ty
deriving DecidableEq

/-- ast::Base: a resolved base-contract entry; constructor arguments are
attached lazily by resolve_base_args.  Argument expressions are opaque
(identified by number). -/
structure Base where
  loc : Loc
  contract_no : Nat
  constructor : Option (Nat × List Nat)
deriving DecidableEq

/-- Modelled from the spec: the symbol variants the symbol-merge walk
distinguishes (ast::Symbol is external to the core source).  A function
symbol carries its overload list; a variable symbol records whether it
has a public accessor and whether it is private; events may be
redefined. -/
inductive Symbol where
  | Function (loc : Loc) (funcs : List Nat)
  | Variable (loc : Loc) (accessor : Bool) (priv : Bool)
  | Event (loc : Loc)
deriving DecidableEq

/-- Modelled from the spec: Symbol::loc. -/
def Symbol.loc : Symbol → Loc
  | .Function l _ => l
  | .Variable l _ _ => l
  | .Event l => l

/-- Modelled from the spec: a symbol has an accessor iff it is a public
(accessor-bearing) variable. -/
def Symbol.has_accessor : Symbol → Bool
  | .Variable _ a _ => a
  | _ => false

/-- Modelled from the spec: Symbol::is_event. -/
def Symbol.is_event : Symbol → Bool
  | .Event _ => true
  | _ => false

/-- Modelled from the spec: a symbol is a private variable iff it is a
variable with private visibility. -/
def Symbol.is_private_variable : Symbol → Bool
  | .Variable _ _ p => p
  | _ => false

/-- The structured payload of a diagnostic message: the message category
together with the names/sets the source interpolates into the message
string.  Two diagnostics are structurally equal exactly when the source
strings would coincide. -/
inductive DiagKind where
  | cannotHaveBase (library : Nat)
  | contractNotFound (name : Nat)
  | selfBase (name : Nat)
  | duplicateBase (contract name : Nat)
  | cyclicBase (base contract : Nat)
  | interfaceBase (contract name : Nat)
  | libraryAsBase (name contract : Nat)
  | alreadyDefined (name : Nat)
  | overridesNonVirtual (name : Nat)
  | mustSpecifyOverrideList (name : Nat)
  | missingOverrides (name : Nat) (missing : Finset Nat)
  | extraneousOverrides (name : Nat) (extra : Finset Nat)
  | mustSpecifyOverride (name : Nat)
  | overridesNothing (name : Nat)
  | overridesSameContract (name : Nat)
  | overrideKindMismatch (name : Nat)
  | overrideParamMismatch (name : Nat)
  | overrideReturnMismatch (name : Nat)
  | overridesNonVirtualPrev (name : Nat)
  | overrideListMissing (name contract : Nat)
  | missingOverrideFor (contract : Nat) (fty : FunctionTy) (name : Nat)
  | duplicateSignature (name : Nat)
  | duplicateBaseArgument (base : Nat)
  | missingBaseConstructorArguments (base : Nat)
deriving DecidableEq

/-- ast::Diagnostic: primary location, message payload, note locations. -/
structure Diagnostic where
  loc : Loc
  kind : DiagKind
  notes : List Loc
deriving DecidableEq

/-- ast::Function: the fields the resolution core reads.  The signature
is the canonical name+parameter-types key, reduced to a number;
parameter and return types are opaque type identifiers; bases holds the
modifier-style base-constructor calls of a constructor as
(base_contract_no, (loc, base_constructor_no, args)) entries. -/
structure Function where
  loc : Loc
  name : Nat
  signature : Nat
  ty : FunctionTy
  is_virtual : Bool
  is_override : Option (Loc × List Nat)
  has_body : Bool
  contract_no : Option Nat
  params : List Nat
  returns : List Nat
  bases : List (Nat × Loc × Nat × List Nat)
deriving DecidableEq

/-- ast::Contract: the fields the resolution core reads and writes
(vars embeds the source field named variables, a Lean reserved word). -/
structure Contract where
  name : Nat
  loc : Loc
  ty : ContractTy
  bases : List Base
  layout : List Layout
  fixed_layout_size : Nat
  dynamic_storage : Bool
  functions : List Nat
  all_functions : List (Nat × Nat)
  virtual_functions : List (Nat × Nat)
  vars : List Variable
deriving DecidableEq

/-- The all-empty contract, used for out-of-range arena reads. -/
def emptyContract : Contract :=
  { name := 0, loc := ⟨0, 0⟩, ty := ContractTy.Contract, bases := [], layout := [],
    fixed_layout_size := 0, dynamic_storage := false, functions := [],
    all_functions := [], virtual_functions := [], vars := [] }

instance : Inhabited Contract := ⟨emptyContract⟩

/-- The all-empty function, used for out-of-range arena reads. -/
def emptyFunction : Function :=
  { loc := ⟨0, 0⟩, name := 0, signature := 0, ty := FunctionTy.Function,
    is_virtual := false, is_override := none, has_body := false,
    contract_no := none, params := [], returns := [], bases := [] }

instance : Inhabited Function := ⟨emptyFunction⟩

/-- ast::Namespace: the flat arenas, global symbol tables keyed by
(file, owning contract, name), the diagnostics sink and the target. -/
structure Namespace where
  contracts : List Contract
  functions : List Function
  variable_symbols : List ((Nat × Option Nat × Nat) × Symbol)
  function_symbols : List ((Nat × Option Nat × Nat) × Symbol)
  diagnostics : List Diagnostic
  target : Target
deriving DecidableEq

/-- Contract arena access (the source indexes ns.contracts directly; all
uses are in bounds, so out-of-range reads return the empty contract). -/
def Namespace.contractAt (ns : Namespace) (n : Nat) : Contract :=
  ns.contracts.getD n emptyContract

/-- Function arena access. -/
def Namespace.fnAt (ns : Namespace) (n : Nat) : Function :=
  ns.functions.getD n emptyFunction

/-- ast::Contract::is_library. -/
def Contract.is_library (c : Contract) : Bool :=
  match c.ty with
  | ContractTy.Library => true
  | _ => false

/-- ast::Contract::is_interface. -/
def Contract.is_interface (c : Contract) : Bool :=
  match c.ty with
  | ContractTy.Interface => true
  | _ => false

/-- ast::Contract::is_concrete: a plain contract declaration. -/
def Contract.is_concrete (c : Contract) : Bool :=
  match c.ty with
  | ContractTy.Contract => true
  | _ => false

/-- ast::Function::is_constructor. -/
def Function.is_constructor (f : Function) : Bool :=
  match f.ty with
  | FunctionTy.Constructor => true
  | _ => false

/-! ### Association-list operations standing in for Rust HashMap -/

/-- HashMap::get on an association list keyed by Nat. -/
def alookup {α : Type} (m : List (Nat × α)) (k : Nat) : Option α :=
  (m.find? (fun p => p.1 = k)).map (fun p => p.2)

/-- HashMap::insert on an association list: replace the binding if the
key is present, otherwise append it. -/
def ainsert {α : Type} (m : List (Nat × α)) (k : Nat) (v : α) : List (Nat × α) :=
  if (m.find? (fun p => p.1 = k)).isSome then
    m.map (fun p => if p.1 = k then (k, v) else p)
  else
    m ++ [(k, v)]

/-- HashMap::remove on an association list. -/
def aerase {α : Type} (m : List (Nat × α)) (k : Nat) : List (Nat × α) :=
  m.filter (fun p => ¬p.1 = k)

/-- HashSet::insert on a list maintained without duplicates (structural
equality), as used for the deduplicated diagnostics set. -/
def insertDiag (l : List Diagnostic) (d : Diagnostic) : List Diagnostic :=
  if d ∈ l then l else l ++ [d]

/-! ### The base graph and the inheritance linearization -/

/-- The direct-base adjacency of a namespace: contract index to the list
of its resolved direct bases in declaration order. -/
def baseList (ns : Namespace) (c : Nat) : List Nat :=
  (ns.contractAt c).bases.map (fun b => b.contract_no)

/-- Call descriptor for the fueled depth-first walk of visit_bases: a
node visit (the body of fn base) or the for-loop over a list of bases. -/
inductive VCall where
  | node (c : Nat)
  | list (l : List Nat)

/-- The recursion tree of visit_bases (fn base in the source): visit the
direct bases in reverse declaration order, recursively, then append the
contract itself if it is not yet in the order.  The fuel parameter is
consumed on every step and only bounds the recursion depth; the Rust
recursion is unbounded and this returns none exactly when fuel runs out. -/
def visitGo (bl : Nat → List Nat) : Nat → VCall → List Nat → Option (List Nat)
  | 0, _, _ => none
  | fuel+1, .node c, order =>
    match visitGo bl fuel (.list ((bl c).reverse)) order with
    | none => none
    | some order2 => some (if c ∈ order2 then order2 else order2 ++ [c])
  | _+1, .list [], order => some order
  | fuel+1, .list (b :: bs), order =>
    match visitGo bl fuel (.node b) order with
    | none => none
    | some order2 => visitGo bl fuel (.list bs) order2

/-- visit_bases: depth-first post-order of the inheritance graph,
starting from the empty order. -/
def visit_bases (bl : Nat → List Nat) (fuel : Nat) (contract_no : Nat) :
    Option (List Nat) :=
  visitGo bl fuel (.node contract_no) []

/-- Call descriptor for the fueled recursion of is_base: one parent test
or the .any loop over a list of parents. -/
inductive BCall where
  | one (parent : Nat)
  | many (parents : List Nat)

/-- The recursion tree of is_base: base is a base of parent if they are
equal, base is a direct base of parent, or base is a base of one of
parent's direct bases.  Fuel as in visitGo. -/
def isBaseGo (bl : Nat → List Nat) (base : Nat) : Nat → BCall → Option Bool
  | 0, _ => none
  | fuel+1, .one parent =>
    if base = parent ∨ base ∈ bl parent then some true
    else isBaseGo bl base fuel (.many (bl parent))
  | _+1, .many [] => some false
  | fuel+1, .many (p :: ps) =>
    match isBaseGo bl base fuel (.one p) with
    | none => none
    | some true => some true
    | some false => isBaseGo bl base fuel (.many ps)

/-- is_base(base, parent, ns). -/
def is_base (bl : Nat → List Nat) (fuel : Nat) (base parent : Nat) : Option Bool :=
  isBaseGo bl base fuel (.one parent)

/-- Reflexive-transitive reachability along the direct-base relation:
Reaches bl c d holds when d is c itself or a transitive base of c. -/
inductive Reaches (bl : Nat → List Nat) : Nat → Nat → Prop
  | refl (c : Nat) : Reaches bl c c
  | step {c b d : Nat} : b ∈ bl c → Reaches bl b d → Reaches bl c d

/-- d is a strict (proper) transitive base of c: reachable through at
least one direct-base edge. -/
def StrictReach (bl : Nat → List Nat) (c d : Nat) : Prop :=
  ∃ b ∈ bl c, Reaches bl b d

/-- A rank function witnessing that the direct-base relation is acyclic:
every direct-base edge strictly decreases the rank.  On the finite base
graph this is equivalent to the absence of cycles. -/
def GoodRank (bl : Nat → List Nat) (rank : Nat → Nat) : Prop :=
  ∀ c, ∀ b ∈ bl c, rank b < rank c

/-- The base relation is acyclic. -/
def Acyclic (bl : Nat → List Nat) : Prop :=
  ∃ rank, GoodRank bl rank

/-- Invariant of the order list built by visit_bases: no duplicates,
closed under strict transitive bases of its members, and topologically
sorted (every strict transitive base of a member precedes it). -/
def VisitInv (bl : Nat → List Nat) (ord : List Nat) : Prop :=
  ord.Nodup ∧
  (∀ x ∈ ord, ∀ y, StrictReach bl x y → y ∈ ord) ∧
  (∀ x y, x ∈ ord → y ∈ ord → StrictReach bl x y → ord.indexOf y < ord.indexOf x)

/-- What each call of the walk guarantees about the order it appends to. -/
def VisitSpec (bl : Nat → List Nat) (call : VCall) (ord res : List Nat) : Prop :=
  VisitInv bl res ∧
  (∃ t, res = ord ++ t ∧ ∀ x ∈ t,
    match call with
    | .node c => Reaches bl c x
    | .list l => ∃ b ∈ l, Reaches bl b x) ∧
  (match call with
   | .node c => ∀ x, Reaches bl c x → x ∈ res
   | .list l => ∀ b ∈ l, ∀ x, Reaches bl b x → x ∈ res)

/-- c lies above a cycle: some contract reachable from c is a strict
transitive base of itself. -/
def HasCycle (bl : Nat → List Nat) (c : Nat) : Prop :=
  ∃ y, Reaches bl c y ∧ StrictReach bl y y

/-! ### The base-graph resolver (resolve_base_contracts) -/

/-- A declared base entry as delivered by the parser: the whole-entry
location, the base name with its own location, and optional argument
expressions. -/
structure PtBase where
  loc : Loc
  name_loc : Loc
  name : Nat
  args : Option (List Nat)

/-- pt::ContractDefinition, reduced to the field resolve_base_contracts
reads (the declared base list). -/
structure ContractDefinition where
  base : List PtBase

/-- Modelled from the spec: Namespace::resolve_contract resolves a base
name to a contract index (external to the core source; the first
contract carrying the name). -/
def Namespace.resolve_contract (ns : Namespace) (_file_no name : Nat) : Option Nat :=
  ns.contracts.findIdx? (fun c => c.name == name)

/-- Namespace::diagnostics.push. -/
def pushDiag (ns : Namespace) (d : Diagnostic) : Namespace :=
  { ns with diagnostics := ns.diagnostics ++ [d] }

/-- Overwrite contract n in the arena. -/
def setContract (ns : Namespace) (n : Nat) (c : Contract) : Namespace :=
  { ns with contracts := ns.contracts.set n c }

/-- The body of the inner loop of resolve_base_contracts for one declared
base of one contract: each failure pushes one diagnostic and leaves the
bases untouched; success appends a Base with no constructor. -/
def resolveOneBase (fuel file_no contract_no : Nat) (b : PtBase) (ns : Namespace) :
    Namespace :=
  if (ns.contractAt contract_no).is_library then
    pushDiag ns ⟨b.loc, .cannotHaveBase (ns.contractAt contract_no).name, []⟩
  else
    match ns.resolve_contract file_no b.name with
    | some no =>
      if no = contract_no then
        pushDiag ns ⟨b.name_loc, .selfBase b.name, []⟩
      else if (ns.contractAt contract_no).bases.any (fun e => e.contract_no == no) then
        pushDiag ns ⟨b.name_loc, .duplicateBase (ns.contractAt contract_no).name b.name, []⟩
      else if is_base (baseList ns) fuel contract_no no = some true then
        pushDiag ns ⟨b.name_loc, .cyclicBase b.name (ns.contractAt contract_no).name, []⟩
      else if (ns.contractAt contract_no).is_interface &&
          !(ns.contractAt no).is_interface then
        pushDiag ns ⟨b.name_loc, .interfaceBase (ns.contractAt contract_no).name b.name, []⟩
      else if (ns.contractAt no).is_library then
        pushDiag ns ⟨b.name_loc, .libraryAsBase b.name (ns.contractAt contract_no).name, []⟩
      else
        setContract ns contract_no
          { ns.contractAt contract_no with
            bases := (ns.contractAt contract_no).bases ++ [⟨b.loc, no, none⟩] }
    | none => pushDiag ns ⟨b.name_loc, .contractNotFound b.name, []⟩

/-- All declared bases of one contract definition. -/
def resolveContractBases (fuel file_no : Nat) (ns : Namespace)
    (p : Nat × ContractDefinition) : Namespace :=
  p.2.base.foldl (fun ns b => resolveOneBase fuel file_no p.1 b ns) ns

/-- resolve_base_contracts: every base of every contract, reporting all
failures as diagnostics and continuing (no early abort). -/
def resolve_base_contracts (fuel : Nat) (contracts : List (Nat × ContractDefinition))
    (file_no : Nat) (ns : Namespace) : Namespace :=
  contracts.foldl (resolveContractBases fuel file_no) ns

/-! ### The linearization and layout engine (layout_contract) -/

/-- Modelled from the spec: SOLANA_FIRST_OFFSET, the fixed non-zero
reserved-region size that starts the storage image on the Solana target
(declared in sema/mod.rs, outside the core source). -/
def SOLANA_FIRST_OFFSET : Nat := 16

/-- The initial value of the slot cursor in layout_contract. -/
def initialSlot (target : Target) : Nat :=
  if target = Target.Solana then SOLANA_FIRST_OFFSET else 0

/-- usize::MAX, the sentinel value recorded in all_functions. -/
def usizeMAX : Nat := 2 ^ 64 - 1

/-- A variable placeholder for out-of-range reads (never reached: the
variable loop runs over 0..len). -/
def emptyVariable : Variable := { constant := true, ty := ⟨1, 1, false⟩ }

instance : Inhabited Variable := ⟨emptyVariable⟩

/-- The storage-layout portion of the walk state: the slot cursor, the
layout image being appended and the dynamic-storage flag. -/
structure StorSt where
  slot : Nat
  layout : List Layout
  dynamic_storage : Bool
deriving DecidableEq

/-- The Solana branch of the variable loop: round the cursor up to the
type alignment when it is misaligned. -/
def alignedSlot (target : Target) (slot align : Nat) : Nat :=
  if target = Target.Solana then
    if 0 < slot % align then slot + (align - slot % align) else slot
  else slot

/-- The body of the variable loop of layout_contract for one var_no:
skip constants; otherwise align (Solana only), record a Layout at the
cursor, set the dynamic flag for unbounded types, and advance the cursor
by the storage footprint. -/
def layoutVar (varsOf : Nat → List Variable) (target : Target) (base_cno : Nat)
    (st : StorSt) (var_no : Nat) : StorSt :=
  let v := (varsOf base_cno).getD var_no emptyVariable
  if v.constant then st
  else
    let slot1 := alignedSlot target st.slot v.ty.align
    { slot := slot1 + v.ty.storage_slots,
      layout := st.layout ++ [⟨slot1, base_cno, var_no, v.ty⟩],
      dynamic_storage := st.dynamic_storage || v.ty.dynamic }

/-- The whole variable loop for one base contract. -/
def layoutBase (varsOf : Nat → List Variable) (target : Target) (st : StorSt)
    (base_cno : Nat) : StorSt :=
  (List.range (varsOf base_cno).length).foldl (layoutVar varsOf target base_cno) st

/-- The storage layout accumulated along a linearization order. -/
def storFold (varsOf : Nat → List Variable) (target : Target) (order : List Nat)
    (st : StorSt) : StorSt :=
  order.foldl (layoutBase varsOf target) st

/-- Invariant of the storage fold: layout slots strictly increase in
assignment order, every recorded slot lies between the initial cursor
and the current cursor (leaving room for its footprint), every entry
refers to a non-constant variable, and on the Solana target every slot
is aligned to its type. -/
def StorInv (varsOf : Nat → List Variable) (target : Target) (slot0 : Nat)
    (st : StorSt) : Prop :=
  st.layout.Pairwise (fun a b => a.slot < b.slot) ∧
  (∀ e ∈ st.layout,
    e.slot < st.slot ∧ slot0 ≤ e.slot ∧
    ((varsOf e.contract_no).getD e.var_no emptyVariable).constant = false ∧
    (target = Target.Solana → e.slot % e.ty.align = 0)) ∧
  slot0 ≤ st.slot

/-- The symbol-merge portion of the walk state. -/
structure SymSt where
  function_syms : List (Nat × Symbol)
  variable_syms : List (Nat × Symbol)
  diags : List Diagnostic

/-- The body of the symbol loop of layout_contract for one global symbol
table entry: skip entries of other contracts/files; merge function
overload lists; report redefinition clashes unless excused by accessor
or event rules; record the symbol unless it is a private variable. -/
def symStep (base_cno contract_file_no : Nat) (st : SymSt)
    (e : (Nat × Option Nat × Nat) × Symbol) : SymSt :=
  let file_no := e.1.1
  let iter_c := e.1.2.1
  let name := e.1.2.2
  let sym := e.2
  if iter_c ≠ some base_cno ∨ file_no ≠ contract_file_no then st
  else
    let done : Bool :=
      match alookup st.function_syms name, sym with
      | some (Symbol.Function _ _), Symbol.Function _ _ => true
      | _, _ => false
    let function_syms :=
      match alookup st.function_syms name, sym with
      | some (Symbol.Function l0 list), Symbol.Function _ funcs =>
          ainsert st.function_syms name (Symbol.Function l0 (list ++ funcs))
      | _, _ => st.function_syms
    let diags :=
      if done then st.diags
      else
        match (alookup st.variable_syms name).orElse
            (fun _ => alookup st.function_syms name) with
        | some prev =>
          if prev.has_accessor || sym.has_accessor || (prev.is_event && sym.is_event) then
            st.diags
          else st.diags ++ [⟨sym.loc, .alreadyDefined name, [prev.loc]⟩]
        | none => st.diags
    let st2 : SymSt := ⟨function_syms, st.variable_syms, diags⟩
    if sym.is_private_variable then st2
    else
      match sym with
      | Symbol.Function _ _ => { st2 with function_syms := ainsert st2.function_syms name sym }
      | _ => { st2 with variable_syms := ainsert st2.variable_syms name sym }

/-- The function-table portion of the walk state: the pending-override
map and the contract maps being populated. -/
structure FnSt where
  override_needed : List (Nat × List (Nat × Nat))
  all_functions : List (Nat × Nat)
  virtual_functions : List (Nat × Nat)
  diags : List Diagnostic

/-- The body of the prev-loop inside the function walk: one previously
visible same-signature definition checked against the current function;
every failed check pushes a diagnostic and moves to the next prev. -/
def prevStep (ns : Namespace) (base_cno function_no : Nat) (cur : Function)
    (signature : Nat) (st : FnSt) (prev : Nat) : FnSt :=
  let func_prev := ns.fnAt prev
  if some base_cno = func_prev.contract_no then
    { st with diags := st.diags ++ [⟨cur.loc, .overridesSameContract cur.name, [func_prev.loc]⟩] }
  else if func_prev.ty ≠ cur.ty then
    { st with diags := st.diags ++ [⟨cur.loc, .overrideKindMismatch cur.name, [func_prev.loc]⟩] }
  else if (func_prev.params.zip cur.params).any (fun q => q.1 != q.2) then
    { st with diags := st.diags ++ [⟨cur.loc, .overrideParamMismatch cur.name, [func_prev.loc]⟩] }
  else if (func_prev.returns.zip cur.returns).any (fun q => q.1 != q.2) then
    { st with diags := st.diags ++ [⟨cur.loc, .overrideReturnMismatch cur.name, [func_prev.loc]⟩] }
  else
    let prev_contract_no := func_prev.contract_no.getD 0
    match cur.is_override with
    | some (loc, override_list) =>
      if !func_prev.is_virtual then
        { st with diags := st.diags ++
            [⟨cur.loc, .overridesNonVirtualPrev cur.name, [func_prev.loc]⟩] }
      else if !override_list.isEmpty && !override_list.contains prev_contract_no then
        { st with diags := st.diags ++
            [⟨loc, .overrideListMissing cur.name (ns.contractAt prev_contract_no).name,
              [func_prev.loc]⟩] }
      else st
    | none =>
      if cur.has_body then
        match alookup st.override_needed signature with
        | some entry =>
          { st with override_needed :=
              ainsert st.override_needed signature (entry ++ [(base_cno, function_no)]) }
        | none =>
          { st with override_needed :=
              ainsert st.override_needed signature ([(prev_contract_no, prev), (base_cno, function_no)]) }
      else st

/-- The tail of the function walk body reached when no continue fired:
record the virtual_functions winner when virtual or marked override, and
record the function in all_functions with the usize::MAX sentinel. -/
def finishFn (st : FnSt) (cur : Function) (signature function_no : Nat) : FnSt :=
  let st :=
    if cur.is_override.isSome || cur.is_virtual then
      { st with virtual_functions := ainsert st.virtual_functions signature function_no }
    else st
  { st with all_functions := ainsert st.all_functions function_no usizeMAX }

/-- The pending-entry half of the function walk body: the pending
override entry for the current signature is being resolved by cur.
Checks every pending entry is virtual, then inspects cur's override
marker: an empty explicit list with several pending ancestors must list
them; a non-empty list is compared against the pending-ancestor set
(missing overrides are reported only when that set has at least two
contracts, extraneous overrides always); with no marker, a single
pending non-interface ancestor requires the override keyword.  The
pending entry is cleared except in the several-ancestors-no-marker
case. -/
def pendingResolve (ns : Namespace) (st : FnSt) (cur : Function) (signature : Nat)
    (entry : List (Nat × Nat)) : FnSt :=
  let non_virtual := entry.filter (fun p => !(ns.fnAt p.2).is_virtual)
  let st :=
    if !non_virtual.isEmpty then
      { st with diags := st.diags ++
          [⟨cur.loc, .overridesNonVirtual cur.name,
            non_virtual.map (fun p => (ns.fnAt p.2).loc)⟩] }
    else st
  match cur.is_override with
  | some (loc, override_specified) =>
    let st :=
      if override_specified.isEmpty && decide (1 < entry.length) then
        { st with diags := st.diags ++ [⟨loc, .mustSpecifyOverrideList cur.name, []⟩] }
      else
        let specified := override_specified.toFinset
        let needed := (entry.map (fun p => p.1)).toFinset
        let missing := needed \ specified
        let st :=
          if missing ≠ ∅ ∧ 2 ≤ needed.card then
            { st with diags := st.diags ++
                [⟨loc, .missingOverrides cur.name missing, []⟩] }
          else st
        let extra := specified \ needed
        if extra ≠ ∅ then
          { st with diags := st.diags ++ [⟨loc, .extraneousOverrides cur.name extra, []⟩] }
        else st
    { st with override_needed := aerase st.override_needed signature }
  | none =>
    if entry.length = 1 then
      let st :=
        if !(ns.contractAt (entry.headD (0, 0)).1).is_interface then
          { st with diags := st.diags ++ [⟨cur.loc, .mustSpecifyOverride cur.name, []⟩] }
        else st
      { st with override_needed := aerase st.override_needed signature }
    else
      { st with diags := st.diags ++ [⟨cur.loc, .mustSpecifyOverrideList cur.name, []⟩] }

/-- The body of the function loop of layout_contract for one function_no
declared in the base contract currently visited: resolve a pending
override entry for its signature, or check it against previously visible
definitions; the two continue paths (overrides nothing / bodyless first
definition) skip the final inserts. -/
def functionWalkStep (ns : Namespace) (_contract_no base_cno : Nat) (st : FnSt)
    (function_no : Nat) : FnSt :=
  let cur := ns.fnAt function_no
  let signature := cur.signature
  match alookup st.override_needed signature with
  | some entry =>
    finishFn (pendingResolve ns st cur signature entry) cur signature function_no
  | none =>
    let previous_defs := (st.all_functions.map (fun p => p.1)).filter
      (fun f => !(ns.fnAt f).is_constructor && (ns.fnAt f).signature == signature)
    if previous_defs.isEmpty && cur.is_override.isSome then
      { st with diags := st.diags ++ [⟨cur.loc, .overridesNothing cur.name, []⟩] }
    else if previous_defs.isEmpty && !cur.has_body then
      { st with override_needed :=
          ainsert st.override_needed signature [(base_cno, function_no)] }
    else
      let st := previous_defs.foldl (prevStep ns base_cno function_no cur signature) st
      finishFn st cur signature function_no

/-- The whole mutable state of layout_contract during the walk. -/
structure WalkSt where
  function_syms : List (Nat × Symbol)
  variable_syms : List (Nat × Symbol)
  override_needed : List (Nat × List (Nat × Nat))
  slot : Nat
  layout : List Layout
  dynamic_storage : Bool
  all_functions : List (Nat × Nat)
  virtual_functions : List (Nat × Nat)
  diags : List Diagnostic

/-- Projection of the walk state read and written by the symbol merge. -/
def symOf (st : WalkSt) : SymSt :=
  ⟨st.function_syms, st.variable_syms, st.diags⟩

/-- Projection of the walk state read and written by the variable loop. -/
def storOf (st : WalkSt) : StorSt :=
  ⟨st.slot, st.layout, st.dynamic_storage⟩

/-- Projection of the walk state read and written by the function walk. -/
def fnOf (st : WalkSt) : FnSt :=
  ⟨st.override_needed, st.all_functions, st.virtual_functions, st.diags⟩

/-- One base contract of the linearization: symbol merge over both
global symbol tables, then the variable loop, then the function walk,
threading the diagnostics stream through all three in source order. -/
def processBase (ns : Namespace) (contract_no : Nat) (st : WalkSt) (base_cno : Nat) :
    WalkSt :=
  let contract_file_no := (ns.contractAt base_cno).loc.file
  let s := (ns.variable_symbols ++ ns.function_symbols).foldl
    (symStep base_cno contract_file_no) (symOf st)
  let st := { st with function_syms := s.function_syms,
                      variable_syms := s.variable_syms, diags := s.diags }
  let r := layoutBase (fun c => (ns.contractAt c).vars) ns.target (storOf st) base_cno
  let st := { st with slot := r.slot, layout := r.layout,
                      dynamic_storage := r.dynamic_storage }
  let f := (ns.contractAt base_cno).functions.foldl
    (functionWalkStep ns contract_no base_cno) (fnOf st)
  { st with override_needed := f.override_needed, all_functions := f.all_functions,
            virtual_functions := f.virtual_functions, diags := f.diags }

/-- The loop over the residual override_needed entries after the walk:
unoverridden virtual functions are accepted in non-concrete contracts;
a single pending entry is a missing override (with a fallback/receive
message variant); several pending entries are a duplicate signature. -/
def residualDiags (ns : Namespace) (contract_no : Nat)
    (entries : List (Nat × List (Nat × Nat))) : List Diagnostic :=
  entries.foldl (fun diags p =>
    let list := p.2
    let func := ns.fnAt (list.headD (0, 0)).2
    if func.is_virtual && !(ns.contractAt contract_no).is_concrete then diags
    else if list.length = 1 then
      diags ++ [⟨(ns.contractAt contract_no).loc,
        .missingOverrideFor (ns.contractAt contract_no).name func.ty func.name,
        [func.loc]⟩]
    else
      diags ++ [⟨func.loc, .duplicateSignature func.name,
        (list.drop 1).map (fun q => (ns.fnAt q.2).loc)⟩]) []

/-- layout_contract: linearize, then walk the order merging symbols,
assigning storage slots and resolving overrides, then write the contract
back and flush the diagnostics (walk diagnostics first, residual
override_needed diagnostics last, as in the source).  The fuel only
feeds visit_bases; with insufficient fuel the namespace is returned
unchanged (the Rust function always terminates on the acyclic graphs it
is invoked on). -/
def layout_contract (fuel contract_no : Nat) (ns : Namespace) : Namespace :=
  match visit_bases (baseList ns) fuel contract_no with
  | none => ns
  | some order =>
    let c := ns.contractAt contract_no
    let st0 : WalkSt :=
      ⟨[], [], [], initialSlot ns.target, c.layout, c.dynamic_storage,
       c.all_functions, c.virtual_functions, []⟩
    let st := order.foldl (processBase ns contract_no) st0
    let ns2 := setContract ns contract_no
      { c with layout := st.layout, dynamic_storage := st.dynamic_storage,
               all_functions := st.all_functions,
               virtual_functions := st.virtual_functions,
               fixed_layout_size := st.slot }
    { ns2 with diagnostics :=
        ns2.diagnostics ++ st.diags ++ residualDiags ns contract_no st.override_needed }

/-! ### Constructor-argument completeness (collect_base_args, check_base_args) -/

/-- Modelled from the spec: Contract::have_constructor — the contract
declares at least one constructor (external to the core source). -/
def Contract.have_constructor (c : Contract) (ns : Namespace) : Bool :=
  c.functions.any (fun f => (ns.fnAt f).is_constructor)

/-- Modelled from the spec: Contract::no_args_constructor — the
contract's constructor callable without arguments, if any (external to
the core source). -/
def Contract.no_args_constructor (c : Contract) (ns : Namespace) : Option Nat :=
  c.functions.find? (fun f => (ns.fnAt f).is_constructor && (ns.fnAt f).params.isEmpty)

/-- Modelled from the spec: Contract::constructor_needs_arguments — the
contract declares constructors and none is callable without arguments
(external to the core source). -/
def Contract.constructor_needs_arguments (c : Contract) (ns : Namespace) : Bool :=
  c.have_constructor ns && (c.no_args_constructor ns).isNone

/-- BaseOrModifier: one collected base-constructor call. -/
structure BaseOrModifier where
  loc : Loc
  defined_constructor_no : Option Nat
  calling_constructor_no : Nat
  args : List Nat
deriving DecidableEq

/-- The accumulator of collect_base_args: the per-base argument map and
the deduplicated (HashSet) diagnostics. -/
structure CBAState where
  base_args : List (Nat × BaseOrModifier)
  diagnostics : List Diagnostic
deriving DecidableEq

/-- Call descriptor for the fueled recursion of collect_base_args:
entering a contract with an optional constructor, the loop over that
constructor's modifier-style base calls, and the loop over the
contract's declared base list. -/
inductive CBACall where
  | start (contract_no : Nat) (constructor_no : Option Nat)
  | modCalls (contract_no defined_ctor : Nat) (entries : List (Nat × Loc × Nat × List Nat))
  | baseCalls (contract_no : Nat) (bases : List Base)

/-- The recursion tree of collect_base_args: first the defined
constructor's own base calls (duplicate keys are duplicate-argument
errors with a note at the earlier call, fresh keys recurse into the
called base constructor), then the contract's base-list calls with the
same duplicate check, bases with neither form recursing through their
no-argument constructor.  Fuel as in visitGo; fuel exhaustion returns
the state unchanged. -/
def cbaGo (ns : Namespace) : Nat → CBACall → CBAState → CBAState
  | 0, _, st => st
  | fuel+1, .start contract_no constructor_no, st =>
    match constructor_no with
    | some defined_ctor =>
      cbaGo ns fuel (.modCalls contract_no defined_ctor (ns.fnAt defined_ctor).bases) st
    | none => cbaGo ns fuel (.baseCalls contract_no (ns.contractAt contract_no).bases) st
  | fuel+1, .modCalls contract_no defined_ctor entries, st =>
    match entries with
    | [] => cbaGo ns fuel (.baseCalls contract_no (ns.contractAt contract_no).bases) st
    | (base_no, loc, ctor_no, args) :: rest =>
      match alookup st.base_args base_no with
      | some prev =>
        let d : Diagnostic :=
          ⟨loc, .duplicateBaseArgument (ns.contractAt base_no).name, [prev.loc]⟩
        let st := { st with diagnostics := insertDiag st.diagnostics d }
        cbaGo ns fuel (.modCalls contract_no defined_ctor rest) st
      | none =>
        let st := { st with base_args := st.base_args ++
            [(base_no, ⟨loc, some defined_ctor, ctor_no, args⟩)] }
        let st := cbaGo ns fuel (.start base_no (some ctor_no)) st
        cbaGo ns fuel (.modCalls contract_no defined_ctor rest) st
  | fuel+1, .baseCalls contract_no bases, st =>
    match bases with
    | [] => st
    | base :: rest =>
      let st :=
        match base.constructor with
        | some (ctor_no, args) =>
          match alookup st.base_args base.contract_no with
          | some prev =>
            let d : Diagnostic :=
              ⟨base.loc, .duplicateBaseArgument (ns.contractAt base.contract_no).name,
               [prev.loc]⟩
            { st with diagnostics := insertDiag st.diagnostics d }
          | none =>
            let st := { st with base_args := st.base_args ++
                [(base.contract_no, ⟨base.loc, none, ctor_no, args⟩)] }
            cbaGo ns fuel (.start base.contract_no (some ctor_no)) st
        | none =>
          cbaGo ns fuel (.start base.contract_no
            ((ns.contractAt base.contract_no).no_args_constructor ns)) st
      cbaGo ns fuel (.baseCalls contract_no rest) st

/-- collect_base_args entry point. -/
def collect_base_args (ns : Namespace) (fuel contract_no : Nat)
    (constructor_no : Option Nat) (st : CBAState) : CBAState :=
  cbaGo ns fuel (.start contract_no constructor_no) st

/-- check_base_args: for a concrete contract, compute the linearized
bases (excluding the contract) whose constructors require arguments;
walk the collected base-argument map once per declared constructor (or
once from none when no constructor is declared) and report a missing
diagnostic for every required base absent from the map; finally merge
the deduplicated set into the namespace. -/
def check_base_args (fuel contract_no : Nat) (ns : Namespace) : Namespace :=
  let contract := ns.contractAt contract_no
  if !contract.is_concrete then ns
  else
    let order := (visit_bases (baseList ns) fuel contract_no).getD []
    let base_args_needed := order.filter
      (fun base_no => base_no != contract_no &&
        (ns.contractAt base_no).constructor_needs_arguments ns)
    let diagnostics : List Diagnostic := []
    let diagnostics :=
      if contract.have_constructor ns then
        (contract.functions.filter (fun f => (ns.fnAt f).is_constructor)).foldl
          (fun diags ctor =>
            let st := collect_base_args ns fuel contract_no (some ctor) ⟨[], diags⟩
            base_args_needed.foldl (fun diags2 base_no =>
              if (alookup st.base_args base_no).isNone then
                insertDiag diags2
                  ⟨contract.loc, .missingBaseConstructorArguments (ns.contractAt base_no).name, []⟩
              else diags2) st.diagnostics) diagnostics
      else
        let st := collect_base_args ns fuel contract_no none ⟨[], diagnostics⟩
        base_args_needed.foldl (fun diags2 base_no =>
          if (alookup st.base_args base_no).isNone then
            insertDiag diags2
              ⟨contract.loc, .missingBaseConstructorArguments (ns.contractAt base_no).name, []⟩
          else diags2) st.diagnostics
    { ns with diagnostics := ns.diagnostics ++ diagnostics }

/-! ### The resolve phase tail (resolve_bodies gating check_base_args) -/

/-- resolve_bodies: the deferred bodies with the outcome of the external
statement resolver carried in each triple (true = body resolved); the
broken flag becomes true as soon as one body fails. -/
def resolve_bodies (bodies : List (Nat × Nat × Bool)) : Bool :=
  bodies.foldl (fun broken b => if b.2.2 then broken else true) false

/-- The tail of resolve: check_base_args runs for every contract of the
compilation exactly when resolve_bodies reported no failure. -/
def resolveTail (fuel : Nat) (contracts : List Nat) (bodies : List (Nat × Nat × Bool))
    (ns : Namespace) : Namespace :=
  if !resolve_bodies bodies then
    contracts.foldl (fun ns c => check_base_args fuel c ns) ns
  else ns

/-! ### Small concrete namespaces used as evaluation witnesses -/

/-- Fixture: contract 0 inherits contract 1, contract 1 has no bases. -/
def nsChain : Namespace :=
  { contracts :=
      [{ emptyContract with name := 20, bases := [⟨⟨0, 0⟩, 1, none⟩] },
       { emptyContract with name := 21 }],
    functions := [], variable_symbols := [], function_symbols := [],
    diagnostics := [], target := Target.Other }

/-- Fixture: contract 0 lists itself as a base (a cyclic base graph, as
it would look if the resolver checks were bypassed). -/
def nsLoop : Namespace :=
  { contracts := [{ emptyContract with name := 22, bases := [⟨⟨0, 0⟩, 0, none⟩] }],
    functions := [], variable_symbols := [], function_symbols := [],
    diagnostics := [], target := Target.Other }

/-- Fixture: a contract with one non-constant storage variable. -/
def cVar : Contract :=
  { emptyContract with
      name := 30, vars := [⟨false, ⟨1, 1, false⟩⟩] }

/-- Fixture namespace around cVar. -/
def nsVar : Namespace :=
  { contracts := [cVar], functions := [], variable_symbols := [],
    function_symbols := [], diagnostics := [], target := Target.Other }

/-- Fixture: a bodyless virtual function without an override marker. -/
def fnBodyless : Function :=
  { emptyFunction with
      name := 7, signature := 7, is_virtual := true,
      has_body := false, contract_no := some 0 }

/-- Fixture namespace: a concrete contract declaring only fnBodyless. -/
def nsBodyless : Namespace :=
  { contracts := [{ emptyContract with name := 31, functions := [0] }],
    functions := [fnBodyless], variable_symbols := [], function_symbols := [],
    diagnostics := [], target := Target.Other }

/-- Fixture: base contract B whose constructor takes one parameter. -/
def fnBaseCtor : Function :=
  { emptyFunction with
      name := 100, signature := 100, ty := FunctionTy.Constructor,
      params := [5], contract_no := some 0 }

/-- Fixture: the constructor of C that calls no base constructor. -/
def fnCtorNoCall : Function :=
  { emptyFunction with
      name := 101, signature := 101, ty := FunctionTy.Constructor,
      params := [], contract_no := some 1 }

/-- Fixture: the constructor of C with a modifier-style call of B. -/
def fnCtorModCall : Function :=
  { emptyFunction with
      name := 101, signature := 101, ty := FunctionTy.Constructor,
      params := [], bases := [(0, ⟨0, 3⟩, 0, [98])], contract_no := some 1 }

/-- Fixture: contract B requiring constructor arguments. -/
def cBaseNeedsArgs : Contract :=
  { emptyContract with
      name := 40, functions := [0] }

/-- Fixture: concrete contract C inheriting B without base-list args. -/
def cDerivedNoArgs : Contract :=
  { emptyContract with
      name := 41, functions := [1], bases := [⟨⟨0, 2⟩, 0, none⟩] }

/-- Fixture: concrete contract C inheriting B with base-list args. -/
def cDerivedListArgs : Contract :=
  { emptyContract with
      name := 41, functions := [1], bases := [⟨⟨0, 2⟩, 0, some (0, [99])⟩] }

/-- Fixture namespace for the missing-base-arguments scenario. -/
def nsMiss : Namespace :=
  { contracts := [cBaseNeedsArgs, cDerivedNoArgs],
    functions := [fnBaseCtor, fnCtorNoCall], variable_symbols := [],
    function_symbols := [], diagnostics := [], target := Target.Other }

/-- Fixture namespace for the duplicate-base-argument scenario: the
derived constructor supplies B's arguments modifier-style and the base
list supplies them again. -/
def nsDup : Namespace :=
  { contracts := [cBaseNeedsArgs, cDerivedListArgs],
    functions := [fnBaseCtor, fnCtorModCall], variable_symbols := [],
    function_symbols := [], diagnostics := [], target := Target.Other }

/-- Fixture: contract 1 already has contract 0 as a base, so declaring
contract 1 as a base of contract 0 closes a cycle. -/
def nsCyc : Namespace :=
  { contracts :=
      [{ emptyContract with name := 50 },
       { emptyContract with name := 51, bases := [⟨⟨0, 9⟩, 0, none⟩] }],
    functions := [], variable_symbols := [], function_symbols := [],
    diagnostics := [], target := Target.Other }

/-- Fixture: the parsed base entry of contract 0 naming contract 1. -/
def pbCyc : PtBase := ⟨⟨0, 10⟩, ⟨0, 11⟩, 51, none⟩

/-- Fixture: a virtual function of contract 0 with signature 8. -/
def fnVirt8 : Function :=
  { emptyFunction with
      name := 60, signature := 8, is_virtual := true,
      has_body := false, contract_no := some 0 }

/-- Fixture: the overrider of signature 8 in contract 2, whose explicit
override list names contract 1 instead of contract 0. -/
def fnOvrWrongList : Function :=
  { emptyFunction with
      name := 61, signature := 8, is_override := some (⟨0, 12⟩, [1]),
      has_body := true, contract_no := some 2 }

/-- Fixture: a virtual function of contract 0 with signature 9. -/
def fnVirt9 : Function :=
  { emptyFunction with
      name := 62, signature := 9, is_virtual := true,
      has_body := false, contract_no := some 0 }

/-- Fixture: an implementation of signature 9 in contract 2 carrying no
override marker. -/
def fnImplNoMarker : Function :=
  { emptyFunction with
      name := 63, signature := 9, has_body := true, contract_no := some 2 }

/-- Fixture namespace for the override-list scenarios. -/
def nsOvr : Namespace :=
  { contracts :=
      [{ emptyContract with name := 70 },
       { emptyContract with name := 71 },
       { emptyContract with name := 72 }],
    functions := [fnVirt8, fnOvrWrongList, fnVirt9, fnImplNoMarker],
    variable_symbols := [], function_symbols := [], diagnostics := [],
    target := Target.Other }

/-- Fixture walk state: signature 8 pending from (contract 0, function 0). -/
def stOvr : FnSt := ⟨[(8, [(0, 0)])], [], [], []⟩

/-- Fixture walk state: signature 9 pending from (contract 0, function 2). -/
def stImpl : FnSt := ⟨[(9, [(0, 2)])], [], [], []⟩

/-- Fixture: a plain function with a body and no override marker. -/
def fnPlain : Function :=
  { emptyFunction with
      name := 80, signature := 10, has_body := true, contract_no := some 0 }

/-- Fixture namespace: one contract declaring only fnPlain. -/
def nsPlain : Namespace :=
  { contracts := [{ emptyContract with name := 81, functions := [0] }],
    functions := [fnPlain], variable_symbols := [], function_symbols := [],
    diagnostics := [], target := Target.Other }

theorem Reaches.rank_le {bl : Nat → List Nat} {rank : Nat → Nat}
    (hr : GoodRank bl rank) {c d : Nat} (h : Reaches bl c d) : rank d ≤ rank c := by
  induction h with
  | refl c => exact Nat.le_refl _
  | step hb _ ih => exact Nat.le_trans ih (Nat.le_of_lt (hr _ _ hb))

theorem StrictReach.rank_lt {bl : Nat → List Nat} {rank : Nat → Nat}
    (hr : GoodRank bl rank) {c d : Nat} (h : StrictReach bl c d) : rank d < rank c := by
  obtain ⟨b, hb, hbd⟩ := h
  exact Nat.lt_of_le_of_lt (hbd.rank_le hr) (hr _ _ hb)

theorem not_strictReach_self {bl : Nat → List Nat} {rank : Nat → Nat}
    (hr : GoodRank bl rank) (c : Nat) : ¬StrictReach bl c c := by
  intro h
  exact Nat.lt_irrefl _ (h.rank_lt hr)

/-! ### Correctness of the linearization walk -/

theorem visitGo_master (bl : Nat → List Nat) : ∀ (fuel : Nat) (call : VCall)
    (ord res : List Nat), visitGo bl fuel call ord = some res → VisitInv bl ord →
    VisitSpec bl call ord res := by
  intro fuel
  induction fuel with
  | zero => intro call ord res h; simp [visitGo] at h
  | succ fuel ih =>
    intro call ord res h hinv
    match call with
    | .node c =>
      rw [visitGo] at h
      cases hmid : visitGo bl fuel (.list ((bl c).reverse)) ord with
      | none => rw [hmid] at h; exact absurd h (by simp)
      | some mid =>
        rw [hmid] at h
        obtain ⟨hinvm, ⟨t, hmt, htP⟩, hcomp⟩ := ih (.list _) ord mid hmid hinv
        have step_of : ∀ x ∈ t, Reaches bl c x := by
          intro x hx
          obtain ⟨b, hb, hbx⟩ := htP x hx
          exact Reaches.step (List.mem_reverse.mp hb) hbx
        have comp_of : ∀ b ∈ bl c, ∀ x, Reaches bl b x → x ∈ mid := by
          intro b hb x hx
          exact hcomp b (List.mem_reverse.mpr hb) x hx
        by_cases hc : c ∈ mid
        · have hres : res = mid := by
            simp only [hc, if_pos] at h; exact (Option.some_inj.mp h).symm
          subst hres
          refine ⟨hinvm, ⟨t, hmt, step_of⟩, ?_⟩
          intro x hx
          cases hx with
          | refl => exact hc
          | step hb hbd => exact comp_of _ hb _ hbd
        · have hres : res = mid ++ [c] := by
            simp only [hc, if_neg, if_false] at h
            exact (Option.some_inj.mp h).symm
          subst hres
          have hcomp' : ∀ x, Reaches bl c x → x ∈ mid ++ [c] := by
            intro x hx
            cases hx with
            | refl => exact List.mem_append_right _ (List.mem_singleton.mpr rfl)
            | step hb hbd => exact List.mem_append_left _ (comp_of _ hb _ hbd)
          have hclosed : ∀ x ∈ mid ++ [c], ∀ y, StrictReach bl x y → y ∈ mid ++ [c] := by
            intro x hx y hxy
            rcases List.mem_append.mp hx with hx | hx
            · exact List.mem_append_left _ (hinvm.2.1 x hx y hxy)
            · have hxc : x = c := List.mem_singleton.mp hx
              subst hxc
              obtain ⟨b, hb, hby⟩ := hxy
              exact List.mem_append_left _ (comp_of _ hb _ hby)
          refine ⟨⟨?_, hclosed, ?_⟩, ⟨t ++ [c], by rw [hmt, List.append_assoc], ?_⟩, hcomp'⟩
          · exact List.Nodup.append hinvm.1 (List.nodup_singleton c)
              (by intro a ha hb; exact hc ((List.mem_singleton.mp hb) ▸ ha))
          · intro x y hx hy hxy
            rcases List.mem_append.mp hx with hx | hx
            · have hy' : y ∈ mid := by
                have := hinvm.2.1 x hx y hxy
                exact this
              rw [List.indexOf_append_of_mem hx, List.indexOf_append_of_mem hy']
              exact hinvm.2.2 x y hx hy' hxy
            · have hxc : x = c := List.mem_singleton.mp hx
              have hy' : y ∈ mid := by
                obtain ⟨b, hb, hby⟩ := hxy
                exact comp_of _ (hxc ▸ hb) _ hby
              rw [hxc, List.indexOf_append_of_mem hy', List.indexOf_append_of_not_mem hc]
              calc mid.indexOf y < mid.length := List.indexOf_lt_length.mpr hy'
                _ ≤ mid.length + List.indexOf c [c] := Nat.le_add_right _ _
          · intro x hx
            rcases List.mem_append.mp hx with hx | hx
            · exact step_of x hx
            · show Reaches bl c x
              rw [List.mem_singleton.mp hx]
              exact Reaches.refl c
    | .list [] =>
      rw [visitGo] at h
      have hres : res = ord := (Option.some_inj.mp h).symm
      subst hres
      exact ⟨hinv, ⟨[], by simp, by simp⟩, by simp⟩
    | .list (b :: bs) =>
      rw [visitGo] at h
      cases hmid : visitGo bl fuel (.node b) ord with
      | none => rw [hmid] at h; exact absurd h (by simp)
      | some mid =>
        rw [hmid] at h
        obtain ⟨hinv1, ⟨t1, ht1, ht1P⟩, hcomp1⟩ := ih (.node b) ord mid hmid hinv
        obtain ⟨hinv2, ⟨t2, ht2, ht2P⟩, hcomp2⟩ := ih (.list bs) mid res h hinv1
        refine ⟨hinv2, ⟨t1 ++ t2, by rw [ht2, ht1, List.append_assoc], ?_⟩, ?_⟩
        · intro x hx
          rcases List.mem_append.mp hx with hx | hx
          · exact ⟨b, List.mem_cons_self _ _, ht1P x hx⟩
          · obtain ⟨b', hb', hx'⟩ := ht2P x hx
            exact ⟨b', List.mem_cons_of_mem _ hb', hx'⟩
        · intro b' hb' x hx
          rcases List.mem_cons.mp hb' with hb' | hb'
          · subst hb'
            have : x ∈ mid := hcomp1 x hx
            rw [ht2]; exact List.mem_append_left _ this
          · exact hcomp2 b' hb' x hx

/-! ### Fuel monotonicity, sufficiency and divergence -/

theorem visitGo_mono (bl : Nat → List Nat) : ∀ (fuel : Nat) (call : VCall)
    (ord res : List Nat), visitGo bl fuel call ord = some res →
    visitGo bl (fuel + 1) call ord = some res := by
  intro fuel
  induction fuel with
  | zero => intro call ord res h; simp [visitGo] at h
  | succ fuel ih =>
    intro call ord res h
    match call with
    | .node c =>
      rw [visitGo] at h
      cases hmid : visitGo bl fuel (.list ((bl c).reverse)) ord with
      | none => rw [hmid] at h; exact absurd h (by simp)
      | some mid =>
        rw [hmid] at h
        rw [visitGo, ih _ _ _ hmid]
        exact h
    | .list [] => rw [visitGo] at h; rw [visitGo]; exact h
    | .list (b :: bs) =>
      rw [visitGo] at h
      cases hmid : visitGo bl fuel (.node b) ord with
      | none => rw [hmid] at h; exact absurd h (by simp)
      | some mid =>
        rw [hmid] at h
        rw [visitGo, ih _ _ _ hmid]
        exact ih _ _ _ h

theorem visitGo_mono_le (bl : Nat → List Nat) {fuel fuel' : Nat} (hle : fuel ≤ fuel')
    {call : VCall} {ord res : List Nat} (h : visitGo bl fuel call ord = some res) :
    visitGo bl fuel' call ord = some res := by
  induction hle with
  | refl => exact h
  | step _ ih => exact visitGo_mono bl _ _ _ _ ih

theorem visitGo_list_term (bl : Nat → List Nat) (l : List Nat)
    (h : ∀ b ∈ l, ∃ F, ∀ ord, (visitGo bl F (.node b) ord).isSome) :
    ∃ F, ∀ ord, (visitGo bl F (.list l) ord).isSome := by
  induction l with
  | nil => exact ⟨1, fun ord => by rw [visitGo]; rfl⟩
  | cons b bs ih =>
    obtain ⟨Fb, hFb⟩ := h b (List.mem_cons_self _ _)
    obtain ⟨Fbs, hFbs⟩ := ih (fun b' hb' => h b' (List.mem_cons_of_mem _ hb'))
    refine ⟨max Fb Fbs + 1, fun ord => ?_⟩
    obtain ⟨mid, hmid⟩ := Option.isSome_iff_exists.mp (hFb ord)
    have hmid' := visitGo_mono_le bl (Nat.le_max_left Fb Fbs) hmid
    rw [visitGo, hmid']
    show (visitGo bl (max Fb Fbs) (.list bs) mid).isSome = true
    obtain ⟨res, hres⟩ := Option.isSome_iff_exists.mp (hFbs mid)
    rw [visitGo_mono_le bl (Nat.le_max_right Fb Fbs) hres]
    rfl

theorem visitGo_node_term (bl : Nat → List Nat) (rank : Nat → Nat)
    (hr : GoodRank bl rank) : ∀ (n c : Nat), rank c < n →
    ∃ F, ∀ ord, (visitGo bl F (.node c) ord).isSome := by
  intro n
  induction n with
  | zero => intro c hc; exact absurd hc (Nat.not_lt_zero _)
  | succ n ih =>
    intro c hc
    have hlist : ∃ F, ∀ ord, (visitGo bl F (.list ((bl c).reverse)) ord).isSome := by
      apply visitGo_list_term
      intro b hb
      exact ih b (Nat.lt_of_lt_of_le (hr c b (List.mem_reverse.mp hb))
        (Nat.lt_succ_iff.mp hc))
    obtain ⟨F, hF⟩ := hlist
    refine ⟨F + 1, fun ord => ?_⟩
    obtain ⟨mid, hmid⟩ := Option.isSome_iff_exists.mp (hF ord)
    rw [visitGo, hmid]
    rfl

theorem Reaches.cases_head {bl : Nat → List Nat} {c y : Nat} (h : Reaches bl c y) :
    c = y ∨ ∃ b ∈ bl c, Reaches bl b y := by
  cases h with
  | refl => exact Or.inl rfl
  | step hb hbd => exact Or.inr ⟨_, hb, hbd⟩

theorem HasCycle.step {bl : Nat → List Nat} {c : Nat} (h : HasCycle bl c) :
    ∃ b ∈ bl c, HasCycle bl b := by
  obtain ⟨y, hcy, hyy⟩ := h
  rcases hcy.cases_head with rfl | ⟨b, hb, hbd⟩
  · obtain ⟨b, hb, hbc⟩ := id hyy
    exact ⟨b, hb, ⟨_, hbc, hyy⟩⟩
  · exact ⟨b, hb, ⟨y, hbd, hyy⟩⟩

theorem visitGo_cycle_none (bl : Nat → List Nat) : ∀ (fuel : Nat),
    (∀ c ord, HasCycle bl c → visitGo bl fuel (.node c) ord = none) ∧
    (∀ (l : List Nat) ord b, b ∈ l → HasCycle bl b →
      visitGo bl fuel (.list l) ord = none) := by
  intro fuel
  induction fuel with
  | zero => exact ⟨fun _ _ _ => rfl, fun _ _ _ _ _ => rfl⟩
  | succ fuel ih =>
    constructor
    · intro c ord hcyc
      obtain ⟨b, hb, hbc⟩ := hcyc.step
      rw [visitGo, ih.2 ((bl c).reverse) ord b (List.mem_reverse.mpr hb) hbc]
    · intro l ord b hbl hbc
      match l with
      | b' :: bs =>
        rcases List.mem_cons.mp hbl with hbb | hbb
        · rw [visitGo]
          have hnone := ih.1 b' ord (hbb ▸ hbc)
          rw [hnone]
        · rw [visitGo]
          cases hmid : visitGo bl fuel (.node b') ord with
          | none => rfl
          | some mid =>
            show visitGo bl fuel (.list bs) mid = none
            exact ih.2 bs mid b hbb hbc

/-! ### Correctness and termination of is_base -/

theorem isBaseGo_correct (bl : Nat → List Nat) (base : Nat) : ∀ (fuel : Nat)
    (call : BCall) (res : Bool), isBaseGo bl base fuel call = some res →
    (match call with
     | .one parent => (res = true ↔ Reaches bl parent base)
     | .many l => (res = true ↔ ∃ p ∈ l, Reaches bl p base)) := by
  intro fuel
  induction fuel with
  | zero => intro call res h; simp [isBaseGo] at h
  | succ fuel ih =>
    intro call res h
    match call with
    | .one parent =>
      rw [isBaseGo] at h
      by_cases hdir : base = parent ∨ base ∈ bl parent
      · rw [if_pos hdir] at h
        have hres : res = true := (Option.some_inj.mp h).symm
        subst hres
        simp only [true_iff]
        rcases hdir with hdir | hdir
        · exact hdir ▸ Reaches.refl base
        · exact Reaches.step hdir (Reaches.refl base)
      · rw [if_neg hdir] at h
        have := ih (.many (bl parent)) res h
        simp only at this
        rw [this]
        constructor
        · rintro ⟨p, hp, hpb⟩
          exact Reaches.step hp hpb
        · intro hr
          cases hr with
          | refl => exact absurd (Or.inl rfl) hdir
          | step hb hbd => exact ⟨_, hb, hbd⟩
    | .many [] =>
      rw [isBaseGo] at h
      have hres : res = false := (Option.some_inj.mp h).symm
      subst hres
      simp
    | .many (p :: ps) =>
      rw [isBaseGo] at h
      cases hp : isBaseGo bl base fuel (.one p) with
      | none => rw [hp] at h; exact absurd h (by simp)
      | some r1 =>
        rw [hp] at h
        have hone := ih (.one p) r1 hp
        simp only at hone
        match r1 with
        | true =>
          have hres : res = true := (Option.some_inj.mp h).symm
          subst hres
          simp only [true_iff]
          exact ⟨p, List.mem_cons_self _ _, hone.mp rfl⟩
        | false =>
          have hmany := ih (.many ps) res h
          simp only at hmany
          rw [hmany]
          constructor
          · rintro ⟨p', hp', hpb⟩
            exact ⟨p', List.mem_cons_of_mem _ hp', hpb⟩
          · rintro ⟨p', hp', hpb⟩
            rcases List.mem_cons.mp hp' with hpp | hpp
            · exact absurd (hone.mpr (hpp ▸ hpb)) (by simp)
            · exact ⟨p', hpp, hpb⟩

theorem isBaseGo_mono (bl : Nat → List Nat) (base : Nat) : ∀ (fuel : Nat)
    (call : BCall) (res : Bool), isBaseGo bl base fuel call = some res →
    isBaseGo bl base (fuel + 1) call = some res := by
  intro fuel
  induction fuel with
  | zero => intro call res h; simp [isBaseGo] at h
  | succ fuel ih =>
    intro call res h
    match call with
    | .one parent =>
      rw [isBaseGo] at h
      by_cases hdir : base = parent ∨ base ∈ bl parent
      · rw [if_pos hdir] at h; rw [isBaseGo, if_pos hdir]; exact h
      · rw [if_neg hdir] at h; rw [isBaseGo, if_neg hdir]; exact ih _ _ h
    | .many [] => rw [isBaseGo] at h; rw [isBaseGo]; exact h
    | .many (p :: ps) =>
      rw [isBaseGo] at h
      cases hp : isBaseGo bl base fuel (.one p) with
      | none => rw [hp] at h; exact absurd h (by simp)
      | some r1 =>
        rw [hp] at h
        rw [isBaseGo, ih _ _ hp]
        match r1 with
        | true => exact h
        | false => exact ih _ _ h

theorem isBaseGo_mono_le (bl : Nat → List Nat) (base : Nat) {fuel fuel' : Nat}
    (hle : fuel ≤ fuel') {call : BCall} {res : Bool}
    (h : isBaseGo bl base fuel call = some res) :
    isBaseGo bl base fuel' call = some res := by
  induction hle with
  | refl => exact h
  | step _ ih => exact isBaseGo_mono bl base _ _ _ ih

theorem isBaseGo_many_term (bl : Nat → List Nat) (base : Nat) (l : List Nat)
    (h : ∀ p ∈ l, ∃ F, (isBaseGo bl base F (.one p)).isSome) :
    ∃ F, (isBaseGo bl base F (.many l)).isSome := by
  induction l with
  | nil => exact ⟨1, by rw [isBaseGo]; rfl⟩
  | cons p ps ih =>
    obtain ⟨Fp, hFp⟩ := h p (List.mem_cons_self _ _)
    obtain ⟨Fps, hFps⟩ := ih (fun p' hp' => h p' (List.mem_cons_of_mem _ hp'))
    refine ⟨max Fp Fps + 1, ?_⟩
    obtain ⟨r1, hr1⟩ := Option.isSome_iff_exists.mp hFp
    rw [isBaseGo, isBaseGo_mono_le bl base (Nat.le_max_left Fp Fps) hr1]
    match r1 with
    | true => rfl
    | false =>
      obtain ⟨r2, hr2⟩ := Option.isSome_iff_exists.mp hFps
      rw [isBaseGo_mono_le bl base (Nat.le_max_right Fp Fps) hr2]
      rfl

theorem isBaseGo_one_term (bl : Nat → List Nat) (base : Nat) (rank : Nat → Nat)
    (hr : GoodRank bl rank) : ∀ (n parent : Nat), rank parent < n →
    ∃ F, (isBaseGo bl base F (.one parent)).isSome := by
  intro n
  induction n with
  | zero => intro parent hp; exact absurd hp (Nat.not_lt_zero _)
  | succ n ih =>
    intro parent hp
    obtain ⟨F, hF⟩ := isBaseGo_many_term bl base (bl parent)
      (fun p hpp => ih p (Nat.lt_of_lt_of_le (hr parent p hpp) (Nat.lt_succ_iff.mp hp)))
    refine ⟨F + 1, ?_⟩
    rw [isBaseGo]
    by_cases hdir : base = parent ∨ base ∈ bl parent
    · rw [if_pos hdir]; rfl
    · rw [if_neg hdir]
      obtain ⟨r, hrr⟩ := Option.isSome_iff_exists.mp hF
      rw [hrr]; rfl

/-- C1: for every namespace whose base relation is acyclic, the order
returned by visit_bases contains exactly the contracts transitively
reachable through the bases of c (c itself included), each exactly once;
c is the last element; and every transitive base precedes every contract
that lists it as a (direct or transitive) base. -/
theorem c1_visit_bases_order (ns : Namespace) (fuel c : Nat) (ord : List Nat)
    (hacy : Acyclic (baseList ns))
    (h : visit_bases (baseList ns) fuel c = some ord) :
    (∀ x, x ∈ ord ↔ Reaches (baseList ns) c x) ∧
    (∀ x, Reaches (baseList ns) c x → ord.count x = 1) ∧
    ord.getLast? = some c ∧
    (∀ x y, x ∈ ord → y ∈ ord → StrictReach (baseList ns) x y →
      ord.indexOf y < ord.indexOf x) := by
  obtain ⟨rank, hr⟩ := hacy
  have hinv0 : VisitInv (baseList ns) [] := ⟨List.nodup_nil, by simp, by simp⟩
  obtain ⟨hinv, ⟨t, ht, htP⟩, hcomp⟩ :=
    visitGo_master (baseList ns) fuel (.node c) [] ord h hinv0
  have hmem : ∀ x, x ∈ ord ↔ Reaches (baseList ns) c x := by
    intro x
    constructor
    · intro hx
      rw [ht] at hx
      exact htP x (by simpa using hx)
    · exact hcomp x
  refine ⟨hmem, ?_, ?_, hinv.2.2⟩
  · intro x hx
    exact List.count_eq_one_of_mem hinv.1 ((hmem x).mpr hx)
  · cases fuel with
    | zero => simp [visit_bases, visitGo] at h
    | succ fuel =>
      rw [visit_bases, visitGo] at h
      cases hmid : visitGo (baseList ns) fuel (.list ((baseList ns c).reverse)) [] with
      | none => rw [hmid] at h; exact absurd h (by simp)
      | some mid =>
        rw [hmid] at h
        obtain ⟨_, ⟨t', ht', ht'P⟩, _⟩ :=
          visitGo_master (baseList ns) fuel (.list _) [] mid hmid hinv0
        have hcmid : c ∉ mid := by
          intro hcm
          rw [ht'] at hcm
          obtain ⟨b, hb, hbc⟩ := ht'P c (by simpa using hcm)
          exact not_strictReach_self hr c ⟨b, List.mem_reverse.mp hb, hbc⟩
        have h2 : some (if c ∈ mid then mid else mid ++ [c]) = some ord := h
        rw [if_neg hcmid] at h2
        have hordmid : ord = mid ++ [c] := (Option.some_inj.mp h2).symm
        rw [hordmid]
        simp

theorem nsChain_acyclic : Acyclic (baseList nsChain) := by
  refine ⟨fun n => if n = 0 then 1 else 0, ?_⟩
  intro c b hb
  rcases c with _ | _ | n
  · simp only [baseList, Namespace.contractAt, nsChain, emptyContract] at hb
    simp only [List.getD_cons_zero, List.map_cons, List.map_nil, List.mem_singleton] at hb
    subst hb
    simp
  · simp [baseList, Namespace.contractAt, nsChain, emptyContract] at hb
  · simp [baseList, Namespace.contractAt, nsChain, emptyContract] at hb

/-- C1 witness: the theorem evaluated on the two-contract chain. -/
theorem c1_visit_bases_order_witness :
    (∀ x, x ∈ [1, 0] ↔ Reaches (baseList nsChain) 0 x) ∧
    (∀ x, Reaches (baseList nsChain) 0 x → List.count x [1, 0] = 1) ∧
    ([1, 0].getLast? = some 0) ∧
    (∀ x y, x ∈ [1, 0] → y ∈ [1, 0] → StrictReach (baseList nsChain) x y →
      [1, 0].indexOf y < [1, 0].indexOf x) :=
  c1_visit_bases_order nsChain 5 0 [1, 0] nsChain_acyclic (by rfl)

/-- C10: for every namespace whose base relation is acyclic, visit_bases
and is_base terminate (some fuel suffices for the fueled recursion tree);
conversely a contract sitting above a cycle exhausts every fuel. -/
theorem c10_termination (ns : Namespace) :
    (Acyclic (baseList ns) →
      (∀ c, ∃ fuel, (visit_bases (baseList ns) fuel c).isSome) ∧
      (∀ base parent, ∃ fuel, (is_base (baseList ns) fuel base parent).isSome)) ∧
    (∀ c, HasCycle (baseList ns) c → ∀ fuel, visit_bases (baseList ns) fuel c = none) := by
  constructor
  · rintro ⟨rank, hr⟩
    constructor
    · intro c
      obtain ⟨F, hF⟩ := visitGo_node_term (baseList ns) rank hr (rank c + 1) c
        (Nat.lt_succ_self _)
      exact ⟨F, hF []⟩
    · intro base parent
      obtain ⟨F, hF⟩ := isBaseGo_one_term (baseList ns) base rank hr (rank parent + 1)
        parent (Nat.lt_succ_self _)
      exact ⟨F, hF⟩
  · intro c hc fuel
    exact (visitGo_cycle_none (baseList ns) fuel).1 c [] hc

/-- C10 witness: termination on the acyclic chain, divergence on the loop. -/
theorem c10_termination_witness :
    (∃ fuel, (visit_bases (baseList nsChain) fuel 0).isSome) ∧
    (∃ fuel, (is_base (baseList nsChain) fuel 1 0).isSome) ∧
    (∀ fuel, visit_bases (baseList nsLoop) fuel 0 = none) :=
  ⟨((c10_termination nsChain).1 nsChain_acyclic).1 0,
   ((c10_termination nsChain).1 nsChain_acyclic).2 1 0,
   (c10_termination nsLoop).2 0
     ⟨0, Reaches.refl 0, ⟨0, by simp [baseList, Namespace.contractAt, nsLoop], Reaches.refl 0⟩⟩⟩

/-! ### Association-list lemmas -/

theorem alookup_append {α : Type} (m1 m2 : List (Nat × α)) (f : Nat) :
    alookup (m1 ++ m2) f =
      match alookup m1 f with
      | some v => some v
      | none => alookup m2 f := by
  induction m1 with
  | nil => simp [alookup]
  | cons p m ih =>
    by_cases hp : p.1 = f
    · simp [alookup, List.find?, hp]
    · simpa [alookup, List.find?, hp] using ih

theorem alookup_map_ne {α : Type} (m : List (Nat × α)) (k f : Nat) (v : α)
    (hne : f ≠ k) :
    alookup (m.map (fun p => if p.1 = k then (k, v) else p)) f = alookup m f := by
  induction m with
  | nil => simp [alookup]
  | cons p m ih =>
    by_cases hp : p.1 = k
    · have hpf : ¬(k = f) := fun h => hne h.symm
      have hpf2 : ¬(p.1 = f) := by rw [hp]; exact hpf
      simpa [alookup, List.find?, hp, hpf, hpf2] using ih
    · by_cases hf : p.1 = f
      · rw [List.map_cons, if_neg hp]
        simp [alookup, List.find?, hf]
      · simpa [alookup, List.find?, hp, hf] using ih

theorem alookup_map_self {α : Type} (m : List (Nat × α)) (k : Nat) (v : α)
    (hsome : (m.find? (fun p => p.1 = k)).isSome) :
    alookup (m.map (fun p => if p.1 = k then (k, v) else p)) k = some v := by
  induction m with
  | nil => simp [List.find?] at hsome
  | cons p m ih =>
    by_cases hp : p.1 = k
    · simp [alookup, List.find?, hp]
    · simp only [List.find?, hp, decide_eq_false, Bool.false_eq_true, if_false] at hsome
      have := ih (by simpa [List.find?, hp] using hsome)
      simpa [alookup, List.find?, hp] using this

theorem alookup_ainsert {α : Type} (m : List (Nat × α)) (k f : Nat) (v : α) :
    alookup (ainsert m k v) f = if f = k then some v else alookup m f := by
  unfold ainsert
  by_cases hsome : (m.find? (fun p => p.1 = k)).isSome
  · rw [if_pos hsome]
    by_cases hf : f = k
    · rw [if_pos hf, hf]
      exact alookup_map_self m k v hsome
    · rw [if_neg hf]
      exact alookup_map_ne m k f v hf
  · rw [if_neg hsome]
    rw [alookup_append]
    by_cases hf : f = k
    · rw [if_pos hf]
      have hnone : alookup m f = none := by
        rw [hf]
        unfold alookup
        rw [Option.not_isSome_iff_eq_none.mp hsome]
        rfl
      rw [hnone]
      simp [alookup, List.find?, hf]
    · rw [if_neg hf]
      cases hm : alookup m f with
      | some w => rfl
      | none =>
        simp only [alookup, List.find?]
        have : ¬(k = f) := fun h => hf h.symm
        simp [this]

theorem alookup_aerase {α : Type} (m : List (Nat × α)) (k : Nat) :
    alookup (aerase m k) k = none := by
  induction m with
  | nil => rfl
  | cons p m ih =>
    by_cases hp : p.1 = k
    · simpa [aerase, hp] using ih
    · simp [aerase, alookup, List.find?, hp]

/-! ### Fold combinators -/

theorem foldl_pres {α σ : Type} (s : σ → α → σ) (P : σ → Prop) :
    ∀ (l : List α) (st : σ), (∀ st x, x ∈ l → P st → P (s st x)) → P st →
      P (l.foldl s st) := by
  intro l
  induction l with
  | nil => intro st _ h0; exact h0
  | cons a as ih =>
    intro st hstep h0
    exact ih (s st a) (fun st x hx => hstep st x (List.mem_cons_of_mem _ hx))
      (hstep st a (List.mem_cons_self _ _) h0)

theorem foldl_est {α σ : Type} (s : σ → α → σ) (P : σ → Prop) :
    ∀ (l : List α) (st : σ) (x : α), x ∈ l → (∀ st, P (s st x)) →
      (∀ st y, y ∈ l → P st → P (s st y)) → P (l.foldl s st) := by
  intro l
  induction l with
  | nil => intro st x hx; exact absurd hx (List.not_mem_nil x)
  | cons a as ih =>
    intro st x hx hest hpres
    rcases List.mem_cons.mp hx with hx | hx
    · subst hx
      exact foldl_pres s P as (s st x)
        (fun st y hy => hpres st y (List.mem_cons_of_mem _ hy)) (hest st)
    · exact ih (s st a) x hx hest
        (fun st y hy => hpres st y (List.mem_cons_of_mem _ hy))

/-! ### C8: the gating of check_base_args on body resolution -/

theorem resolve_bodies_any (bodies : List (Nat × Nat × Bool)) :
    ∀ broken : Bool,
      bodies.foldl (fun broken b => if b.2.2 then broken else true) broken =
        (broken || bodies.any (fun b => !b.2.2)) := by
  induction bodies with
  | nil => intro broken; simp
  | cons b bs ih =>
    intro broken
    rw [List.foldl_cons, List.any_cons]
    by_cases hb : b.2.2
    · rw [if_pos hb, ih broken]
      simp [hb]
    · rw [if_neg hb, ih true]
      simp [hb]

/-- C8: the Constructor-Argument Completeness Checker runs for the
contracts of a compilation exactly when statement-level resolution
succeeded for every deferred body; one failed body makes resolve_bodies
report broken and resolveTail skip the checker entirely. -/
theorem c8_checker_gating (fuel : Nat) (contracts : List Nat)
    (bodies : List (Nat × Nat × Bool)) (ns : Namespace) :
    (resolve_bodies bodies = false ↔ ∀ b ∈ bodies, b.2.2 = true) ∧
    ((∀ b ∈ bodies, b.2.2 = true) →
      resolveTail fuel contracts bodies ns =
        contracts.foldl (fun ns c => check_base_args fuel c ns) ns) ∧
    ((∃ b ∈ bodies, b.2.2 = false) → resolveTail fuel contracts bodies ns = ns) := by
  have hrb : resolve_bodies bodies = bodies.any (fun b => !b.2.2) := by
    unfold resolve_bodies
    rw [resolve_bodies_any bodies false]
    simp
  have hiff : resolve_bodies bodies = false ↔ ∀ b ∈ bodies, b.2.2 = true := by
    rw [hrb]
    simp [List.any_eq_false]
  refine ⟨hiff, ?_, ?_⟩
  · intro hall
    unfold resolveTail
    rw [hiff.mpr hall]
    rfl
  · intro hex
    unfold resolveTail
    have : resolve_bodies bodies = true := by
      rw [hrb]
      obtain ⟨b, hb, hfalse⟩ := hex
      exact List.any_eq_true.mpr ⟨b, hb, by simp [hfalse]⟩
    rw [this]
    rfl

/-- C8 witness: one resolved body runs the checker, one failed body
skips it. -/
theorem c8_checker_gating_witness :
    (resolveTail 5 [0] [(1, 1, true)] nsMiss =
      [0].foldl (fun ns c => check_base_args 5 c ns) nsMiss) ∧
    resolveTail 5 [0] [(1, 1, false)] nsMiss = nsMiss :=
  ⟨(c8_checker_gating 5 [0] [(1, 1, true)] nsMiss).2.1 (by decide),
   (c8_checker_gating 5 [0] [(1, 1, false)] nsMiss).2.2 ⟨(1, 1, false), by decide, rfl⟩⟩

/-! ### C6: rejections of the base-graph resolver -/

/-- C6: during base-graph resolution a self base, a duplicate base and a
cycle-closing base each push exactly one diagnostic of a distinct kind
and append no Base entry (the namespace is only extended by the
diagnostic); resolution of later entries and later contracts continues
on the updated namespace (the resolver folds over them, no early
abort). -/
theorem c6_base_graph_rejections (fuel file_no contract_no no : Nat) (b : PtBase)
    (ns : Namespace)
    (hlib : (ns.contractAt contract_no).is_library = false)
    (hres : ns.resolve_contract file_no b.name = some no) :
    (no = contract_no →
      resolveOneBase fuel file_no contract_no b ns =
        pushDiag ns ⟨b.name_loc, .selfBase b.name, []⟩) ∧
    (no ≠ contract_no →
      (ns.contractAt contract_no).bases.any (fun e => e.contract_no == no) = true →
      resolveOneBase fuel file_no contract_no b ns =
        pushDiag ns ⟨b.name_loc, .duplicateBase (ns.contractAt contract_no).name b.name, []⟩) ∧
    (no ≠ contract_no →
      (ns.contractAt contract_no).bases.any (fun e => e.contract_no == no) = false →
      Reaches (baseList ns) no contract_no →
      (is_base (baseList ns) fuel contract_no no).isSome →
      resolveOneBase fuel file_no contract_no b ns =
        pushDiag ns ⟨b.name_loc, .cyclicBase b.name (ns.contractAt contract_no).name, []⟩) ∧
    (∀ d, (pushDiag ns d).contracts = ns.contracts) ∧
    ((DiagKind.selfBase b.name ≠
        DiagKind.duplicateBase (ns.contractAt contract_no).name b.name) ∧
     (DiagKind.selfBase b.name ≠
        DiagKind.cyclicBase b.name (ns.contractAt contract_no).name) ∧
     (DiagKind.duplicateBase (ns.contractAt contract_no).name b.name ≠
        DiagKind.cyclicBase b.name (ns.contractAt contract_no).name)) ∧
    (∀ (l1 l2 : List (Nat × ContractDefinition)) (ns' : Namespace),
      resolve_base_contracts fuel (l1 ++ l2) file_no ns' =
        resolve_base_contracts fuel l2 file_no (resolve_base_contracts fuel l1 file_no ns')) := by
  refine ⟨?_, ?_, ?_, fun d => rfl, ⟨by simp, by simp, by simp⟩, ?_⟩
  · intro hself
    unfold resolveOneBase
    rw [hlib]
    simp only [Bool.false_eq_true, if_false, hres, hself, if_pos]
  · intro hne hdup
    unfold resolveOneBase
    rw [hlib]
    simp only [Bool.false_eq_true, if_false, hres]
    rw [if_neg hne, hdup]
    simp only [if_pos]
  · intro hne hdup hreach hsome
    have htrue : is_base (baseList ns) fuel contract_no no = some true := by
      obtain ⟨r, hr⟩ := Option.isSome_iff_exists.mp hsome
      have hcor := isBaseGo_correct (baseList ns) contract_no fuel (.one no) r hr
      simp only at hcor
      rw [hr, hcor.mpr hreach]
    unfold resolveOneBase
    rw [hlib]
    simp only [Bool.false_eq_true, if_false, hres]
    rw [if_neg hne, hdup]
    simp only [Bool.false_eq_true, if_false]
    rw [if_pos htrue]
  · intro l1 l2 ns'
    unfold resolve_base_contracts
    exact List.foldl_append _ _ l1 l2

/-- C6 witness: the cycle rejection evaluated on the two-contract cycle
fixture. -/
theorem c6_base_graph_rejections_witness :
    resolveOneBase 5 0 0 pbCyc nsCyc =
      pushDiag nsCyc ⟨⟨0, 11⟩, .cyclicBase 51 50, []⟩ :=
  (c6_base_graph_rejections 5 0 0 1 pbCyc nsCyc rfl (by rfl)).2.2.1 (by decide) (by rfl)
    (Reaches.step (by decide) (Reaches.refl 0)) (by rfl)

/-! ### C2: storage layout invariants -/

theorem getD_set_self {α : Type} (l : List α) (n : Nat) (c d : α)
    (h : n < l.length) : (l.set n c).getD n d = c := by
  rw [List.getD_eq_getElem _ _ (by simpa using h)]
  simp [List.getElem_set]

theorem getD_set_ne {α : Type} (l : List α) (n m : Nat) (c d : α) (hne : m ≠ n) :
    (l.set n c).getD m d = l.getD m d := by
  simp [List.getD, List.getElem?_set_ne (fun h2 => hne h2.symm)]

theorem alignedSlot_le (target : Target) (slot align : Nat) :
    slot ≤ alignedSlot target slot align := by
  unfold alignedSlot
  split
  · split
    · exact Nat.le_add_right _ _
    · exact Nat.le_refl _
  · exact Nat.le_refl _

theorem alignedSlot_mod (slot align : Nat) (ha : 1 ≤ align) :
    alignedSlot Target.Solana slot align % align = 0 := by
  unfold alignedSlot
  rw [if_pos rfl]
  by_cases h : 0 < slot % align
  · rw [if_pos h]
    have hlt : slot % align < align := Nat.mod_lt _ ha
    have hdm : align * (slot / align) + slot % align = slot := Nat.div_add_mod slot align
    have h2 : slot + (align - slot % align) = align * (slot / align + 1) := by
      rw [Nat.mul_add, Nat.mul_one]
      omega
    rw [h2, Nat.mul_mod_right]
  · rw [if_neg h]
    omega

theorem layoutVar_inv (varsOf : Nat → List Variable) (target : Target) (slot0 b : Nat)
    (hpos : ∀ v ∈ varsOf b, 1 ≤ v.ty.storage_slots ∧ 1 ≤ v.ty.align) :
    ∀ (st : StorSt) (i : Nat), i ∈ List.range (varsOf b).length →
      StorInv varsOf target slot0 st →
      StorInv varsOf target slot0 (layoutVar varsOf target b st i) := by
  intro st i hi hinv
  have hilt : i < (varsOf b).length := List.mem_range.mp hi
  unfold layoutVar
  by_cases hc : ((varsOf b).getD i emptyVariable).constant
  · rw [if_pos hc]; exact hinv
  · rw [if_neg hc]
    have hvmem : (varsOf b).getD i emptyVariable ∈ varsOf b := by
      rw [List.getD_eq_getElem _ _ hilt]
      exact List.getElem_mem hilt
    obtain ⟨hss, hal⟩ := hpos _ hvmem
    have hle : st.slot ≤
        alignedSlot target st.slot ((varsOf b).getD i emptyVariable).ty.align :=
      alignedSlot_le _ _ _
    obtain ⟨hpw, hent, hs0⟩ := hinv
    refine ⟨?_, ?_, ?_⟩
    · rw [List.pairwise_append]
      refine ⟨hpw, List.pairwise_singleton _ _, ?_⟩
      intro a ha a2 ha2
      rw [List.mem_singleton.mp ha2]
      exact Nat.lt_of_lt_of_le (hent a ha).1 hle
    · intro e he
      rcases List.mem_append.mp he with he | he
      · obtain ⟨h1, h2, h3, h4⟩ := hent e he
        refine ⟨?_, h2, h3, h4⟩
        dsimp only
        omega
      · rw [List.mem_singleton.mp he]
        refine ⟨by dsimp only; omega, Nat.le_trans hs0 hle, ?_, ?_⟩
        · exact Bool.eq_false_iff.mpr hc
        · intro htgt
          subst htgt
          exact alignedSlot_mod st.slot _ hal
    · exact Nat.le_trans hs0 (Nat.le_trans hle (Nat.le_add_right _ _))

theorem storFold_inv (varsOf : Nat → List Variable) (target : Target) (slot0 : Nat)
    (order : List Nat) (st : StorSt)
    (hpos : ∀ c, ∀ v ∈ varsOf c, 1 ≤ v.ty.storage_slots ∧ 1 ≤ v.ty.align)
    (hinv : StorInv varsOf target slot0 st) :
    StorInv varsOf target slot0 (storFold varsOf target order st) := by
  unfold storFold
  apply foldl_pres (layoutBase varsOf target) (StorInv varsOf target slot0) order st
    ?_ hinv
  intro st b _hb hinvb
  unfold layoutBase
  exact foldl_pres (layoutVar varsOf target b) (StorInv varsOf target slot0) _ st
    (fun st i hi h => layoutVar_inv varsOf target slot0 b (hpos b) st i hi h) hinvb

theorem storOf_processBase (ns : Namespace) (cno : Nat) (st : WalkSt) (b : Nat) :
    storOf (processBase ns cno st b) =
      layoutBase (fun c => (ns.contractAt c).vars) ns.target (storOf st) b := rfl

theorem storOf_walk (ns : Namespace) (cno : Nat) : ∀ (order : List Nat) (st : WalkSt),
    storOf (order.foldl (processBase ns cno) st) =
      storFold (fun c => (ns.contractAt c).vars) ns.target order (storOf st) := by
  intro order
  induction order with
  | nil => intro st; rfl
  | cons b bs ih =>
    intro st
    show storOf (List.foldl (processBase ns cno) (processBase ns cno st b) bs) = _
    rw [ih (processBase ns cno st b), storOf_processBase]
    rfl

theorem layout_contract_layout (fuel cno : Nat) (ns : Namespace) (order : List Nat)
    (hlt : cno < ns.contracts.length)
    (h : visit_bases (baseList ns) fuel cno = some order) :
    ((layout_contract fuel cno ns).contractAt cno).layout =
      (storFold (fun c => (ns.contractAt c).vars) ns.target order
        ⟨initialSlot ns.target, (ns.contractAt cno).layout,
         (ns.contractAt cno).dynamic_storage⟩).layout := by
  unfold layout_contract
  rw [h]
  show ((ns.contracts.set cno _).getD cno emptyContract).layout = _
  rw [getD_set_self _ _ _ _ hlt]
  show (List.foldl (processBase ns cno) _ order).layout = _
  have := storOf_walk ns cno order
    ⟨[], [], [], initialSlot ns.target, (ns.contractAt cno).layout,
     (ns.contractAt cno).dynamic_storage, (ns.contractAt cno).all_functions,
     (ns.contractAt cno).virtual_functions, []⟩
  calc (List.foldl (processBase ns cno) _ order).layout
      = (storOf (List.foldl (processBase ns cno) _ order)).layout := rfl
    _ = _ := by rw [this]; rfl

/-- C2: after layout_contract, the recorded slots strictly increase in
assignment order; every recorded slot is at least the initial cursor;
every entry refers to a non-constant variable; on the Solana target
every slot is a multiple of its type alignment; and the initial cursor
is the fixed non-zero SOLANA_FIRST_OFFSET on Solana and zero on every
other target.  The storage footprint and alignment positivity
hypotheses reflect the external type metrics (spec-modelled). -/
theorem c2_layout_invariants (fuel cno : Nat) (ns : Namespace) (order : List Nat)
    (hlt : cno < ns.contracts.length)
    (hlay : (ns.contractAt cno).layout = [])
    (hpos : ∀ c, ∀ v ∈ (ns.contractAt c).vars, 1 ≤ v.ty.storage_slots ∧ 1 ≤ v.ty.align)
    (h : visit_bases (baseList ns) fuel cno = some order) :
    ((layout_contract fuel cno ns).contractAt cno).layout.Pairwise
      (fun a b => a.slot < b.slot) ∧
    (∀ e ∈ ((layout_contract fuel cno ns).contractAt cno).layout,
      initialSlot ns.target ≤ e.slot ∧
      ((ns.contractAt e.contract_no).vars.getD e.var_no emptyVariable).constant = false ∧
      (ns.target = Target.Solana → e.slot % e.ty.align = 0)) ∧
    initialSlot Target.Solana = SOLANA_FIRST_OFFSET ∧
    0 < SOLANA_FIRST_OFFSET ∧
    (∀ t, t ≠ Target.Solana → initialSlot t = 0) := by
  have hL := layout_contract_layout fuel cno ns order hlt h
  rw [hlay] at hL
  have hinv0 : StorInv (fun c => (ns.contractAt c).vars) ns.target
      (initialSlot ns.target)
      ⟨initialSlot ns.target, [], (ns.contractAt cno).dynamic_storage⟩ :=
    ⟨List.Pairwise.nil, by intro e he; exact absurd he (List.not_mem_nil e),
     Nat.le_refl _⟩
  have hinv := storFold_inv (fun c => (ns.contractAt c).vars) ns.target
    (initialSlot ns.target) order _ hpos hinv0
  refine ⟨?_, ?_, rfl, by decide, ?_⟩
  · rw [hL]; exact hinv.1
  · intro e he
    rw [hL] at he
    obtain ⟨_, h2, h3, h4⟩ := hinv.2.1 e he
    exact ⟨h2, h3, h4⟩
  · intro t ht
    unfold initialSlot
    rw [if_neg ht]

/-- C2 witness: the theorem evaluated on the one-variable fixture. -/
theorem c2_layout_invariants_witness :
    ((layout_contract 3 0 nsVar).contractAt 0).layout.Pairwise
      (fun a b => a.slot < b.slot) ∧
    (∀ e ∈ ((layout_contract 3 0 nsVar).contractAt 0).layout,
      initialSlot nsVar.target ≤ e.slot ∧
      ((nsVar.contractAt e.contract_no).vars.getD e.var_no emptyVariable).constant = false ∧
      (nsVar.target = Target.Solana → e.slot % e.ty.align = 0)) ∧
    initialSlot Target.Solana = SOLANA_FIRST_OFFSET ∧
    0 < SOLANA_FIRST_OFFSET ∧
    (∀ t, t ≠ Target.Solana → initialSlot t = 0) :=
  c2_layout_invariants 3 0 nsVar [0] (by decide) (by rfl)
    (by
      intro c v hv
      rcases c with _ | c
      · have hv2 : v ∈ [(⟨false, ⟨1, 1, false⟩⟩ : Variable)] := hv
        rcases List.mem_cons.mp hv2 with hv2 | hv2
        · subst hv2; exact ⟨Nat.le_refl 1, Nat.le_refl 1⟩
        · exact absurd hv2 (List.not_mem_nil v)
      · have hv2 : v ∈ ([] : List Variable) := hv
        exact absurd hv2 (List.not_mem_nil v))
    (by rfl)

/-! ### C9: layout_contract appends its entries anew on reentry -/

theorem layoutVar_shift (varsOf : Nat → List Variable) (target : Target) (b : Nat)
    (s : Nat) (L : List Layout) (d : Bool) (i : Nat) :
    layoutVar varsOf target b ⟨s, L, d⟩ i =
      ⟨(layoutVar varsOf target b ⟨s, [], false⟩ i).slot,
       L ++ (layoutVar varsOf target b ⟨s, [], false⟩ i).layout,
       d || (layoutVar varsOf target b ⟨s, [], false⟩ i).dynamic_storage⟩ := by
  unfold layoutVar
  by_cases hc : ((varsOf b).getD i emptyVariable).constant
  · rw [if_pos hc, if_pos hc]
    simp
  · rw [if_neg hc, if_neg hc]
    simp

theorem foldl_stor_shift (step : StorSt → Nat → StorSt)
    (hs : ∀ (s : Nat) (L : List Layout) (d : Bool) (i : Nat),
      step ⟨s, L, d⟩ i =
        ⟨(step ⟨s, [], false⟩ i).slot, L ++ (step ⟨s, [], false⟩ i).layout,
         d || (step ⟨s, [], false⟩ i).dynamic_storage⟩) :
    ∀ (l : List Nat) (s : Nat) (L : List Layout) (d : Bool),
      l.foldl step ⟨s, L, d⟩ =
        ⟨(l.foldl step ⟨s, [], false⟩).slot,
         L ++ (l.foldl step ⟨s, [], false⟩).layout,
         d || (l.foldl step ⟨s, [], false⟩).dynamic_storage⟩ := by
  intro l
  induction l with
  | nil => intro s L d; simp
  | cons i il ih =>
    intro s L d
    rw [List.foldl_cons, List.foldl_cons]
    have hG : List.foldl step (step ⟨s, [], false⟩ i) il =
        ⟨(List.foldl step ⟨(step ⟨s, [], false⟩ i).slot, [], false⟩ il).slot,
         (step ⟨s, [], false⟩ i).layout ++
           (List.foldl step ⟨(step ⟨s, [], false⟩ i).slot, [], false⟩ il).layout,
         (step ⟨s, [], false⟩ i).dynamic_storage ||
           (List.foldl step ⟨(step ⟨s, [], false⟩ i).slot, [], false⟩ il).dynamic_storage⟩ := by
      conv_lhs =>
        rw [show step ⟨s, [], false⟩ i =
          (⟨(step ⟨s, [], false⟩ i).slot, (step ⟨s, [], false⟩ i).layout,
            (step ⟨s, [], false⟩ i).dynamic_storage⟩ : StorSt) from rfl]
      exact ih _ _ _
    rw [hs s L d i, ih, hG]
    simp [List.append_assoc, Bool.or_assoc]

theorem storFold_shift (varsOf : Nat → List Variable) (target : Target)
    (order : List Nat) (s : Nat) (L : List Layout) (d : Bool) :
    storFold varsOf target order ⟨s, L, d⟩ =
      ⟨(storFold varsOf target order ⟨s, [], false⟩).slot,
       L ++ (storFold varsOf target order ⟨s, [], false⟩).layout,
       d || (storFold varsOf target order ⟨s, [], false⟩).dynamic_storage⟩ := by
  unfold storFold
  refine foldl_stor_shift (layoutBase varsOf target) ?_ order s L d
  intro s2 L2 d2 b
  unfold layoutBase
  exact foldl_stor_shift (layoutVar varsOf target b)
    (fun s3 L3 d3 i => layoutVar_shift varsOf target b s3 L3 d3 i) _ s2 L2 d2

theorem layout_contract_preserves (fuel cno : Nat) (ns : Namespace) :
    (∀ c, ((layout_contract fuel cno ns).contractAt c).bases = (ns.contractAt c).bases) ∧
    (∀ c, ((layout_contract fuel cno ns).contractAt c).vars = (ns.contractAt c).vars) ∧
    (layout_contract fuel cno ns).target = ns.target ∧
    (layout_contract fuel cno ns).contracts.length = ns.contracts.length := by
  unfold layout_contract
  cases hv : visit_bases (baseList ns) fuel cno with
  | none => exact ⟨fun c => rfl, fun c => rfl, rfl, rfl⟩
  | some order =>
    dsimp only
    refine ⟨?_, ?_, rfl, by simp [setContract]⟩
    · intro c
      by_cases hc : c = cno
      · subst hc
        by_cases hl : c < ns.contracts.length
        · show ((ns.contracts.set c _).getD c emptyContract).bases = _
          rw [getD_set_self _ _ _ _ hl]
        · show ((ns.contracts.set c _).getD c emptyContract).bases = _
          rw [List.set_eq_of_length_le (Nat.le_of_not_lt hl)]
          rfl
      · show ((ns.contracts.set cno _).getD c emptyContract).bases = _
        rw [getD_set_ne _ _ _ _ _ hc]
        rfl
    · intro c
      by_cases hc : c = cno
      · subst hc
        by_cases hl : c < ns.contracts.length
        · show ((ns.contracts.set c _).getD c emptyContract).vars = _
          rw [getD_set_self _ _ _ _ hl]
        · show ((ns.contracts.set c _).getD c emptyContract).vars = _
          rw [List.set_eq_of_length_le (Nat.le_of_not_lt hl)]
          rfl
      · show ((ns.contracts.set cno _).getD c emptyContract).vars = _
        rw [getD_set_ne _ _ _ _ _ hc]
        rfl

/-- C9 amended: layout_contract is not idempotent; each invocation
appends the per-run layout entry list again, so after a second
invocation the contract's layout is the original list followed by two
copies of the per-run entries (resolve guards idempotence only by
invoking layout_contract once per contract). -/
theorem c9_relayout_appends (fuel cno : Nat) (ns : Namespace) (order : List Nat)
    (hlt : cno < ns.contracts.length)
    (h : visit_bases (baseList ns) fuel cno = some order) :
    ((layout_contract fuel cno ns).contractAt cno).layout =
      (ns.contractAt cno).layout ++
        (storFold (fun c => (ns.contractAt c).vars) ns.target order
          ⟨initialSlot ns.target, [], false⟩).layout ∧
    ((layout_contract fuel cno (layout_contract fuel cno ns)).contractAt cno).layout =
      (ns.contractAt cno).layout ++
        (storFold (fun c => (ns.contractAt c).vars) ns.target order
          ⟨initialSlot ns.target, [], false⟩).layout ++
        (storFold (fun c => (ns.contractAt c).vars) ns.target order
          ⟨initialSlot ns.target, [], false⟩).layout := by
  have hpart1 : ((layout_contract fuel cno ns).contractAt cno).layout =
      (ns.contractAt cno).layout ++
        (storFold (fun c => (ns.contractAt c).vars) ns.target order
          ⟨initialSlot ns.target, [], false⟩).layout := by
    rw [layout_contract_layout fuel cno ns order hlt h,
      show (⟨initialSlot ns.target, (ns.contractAt cno).layout,
        (ns.contractAt cno).dynamic_storage⟩ : StorSt) =
        ⟨initialSlot ns.target, (ns.contractAt cno).layout,
         (ns.contractAt cno).dynamic_storage⟩ from rfl,
      storFold_shift]
  obtain ⟨hbases, hvars, htarget, hlen⟩ := layout_contract_preserves fuel cno ns
  have hbl : baseList (layout_contract fuel cno ns) = baseList ns := by
    funext c
    unfold baseList
    rw [hbases c]
  have hvarse : (fun c => ((layout_contract fuel cno ns).contractAt c).vars) =
      (fun c => (ns.contractAt c).vars) := funext hvars
  have h1 : visit_bases (baseList (layout_contract fuel cno ns)) fuel cno =
      some order := by rw [hbl]; exact h
  have hlt1 : cno < (layout_contract fuel cno ns).contracts.length := by
    rw [hlen]; exact hlt
  have hpart2 := layout_contract_layout fuel cno (layout_contract fuel cno ns)
    order hlt1 h1
  rw [hvarse, htarget, hpart1] at hpart2
  rw [storFold_shift] at hpart2
  refine ⟨hpart1, ?_⟩
  rw [hpart2, List.append_assoc]

/-- C9 counterexample: on the one-variable fixture the second run does
not leave the layout unchanged (it holds two entries instead of one),
refuting the idempotence claim. -/
theorem c9_counterexample :
    ¬(((layout_contract 3 0 (layout_contract 3 0 nsVar)).contractAt 0).layout =
        ((layout_contract 3 0 nsVar).contractAt 0).layout) := by decide

/-! ### C5: population of all_functions during the walk -/

theorem prevStep_all_functions (ns : Namespace) (b f : Nat) (cur : Function)
    (sig : Nat) (st : FnSt) (p : Nat) :
    (prevStep ns b f cur sig st p).all_functions = st.all_functions := by
  unfold prevStep
  dsimp only
  (repeat' split) <;> rfl

theorem prevFold_all_functions (ns : Namespace) (b f : Nat) (cur : Function)
    (sig : Nat) : ∀ (l : List Nat) (st : FnSt),
    (l.foldl (prevStep ns b f cur sig) st).all_functions = st.all_functions := by
  intro l
  induction l with
  | nil => intro st; rfl
  | cons p ps ih =>
    intro st
    rw [List.foldl_cons, ih, prevStep_all_functions]

theorem pendingResolve_all_functions (ns : Namespace) (st : FnSt) (cur : Function)
    (sig : Nat) (entry : List (Nat × Nat)) :
    (pendingResolve ns st cur sig entry).all_functions = st.all_functions := by
  unfold pendingResolve
  dsimp only
  (repeat' split) <;> rfl

theorem finishFn_all_lookup (st : FnSt) (cur : Function) (sig g f : Nat) :
    alookup (finishFn st cur sig g).all_functions f =
      if f = g then some usizeMAX else alookup st.all_functions f := by
  unfold finishFn
  have h1 : (if cur.is_override.isSome || cur.is_virtual then
      { st with virtual_functions := ainsert st.virtual_functions sig g }
      else st).all_functions = st.all_functions := by split <;> rfl
  show alookup (ainsert _ g usizeMAX) f = _
  rw [h1, alookup_ainsert]

theorem fnstep_pres (ns : Namespace) (cno b f : Nat) (st : FnSt) (g : Nat)
    (h : alookup st.all_functions f = some usizeMAX) :
    alookup (functionWalkStep ns cno b st g).all_functions f = some usizeMAX := by
  unfold functionWalkStep
  dsimp only
  cases halo : alookup st.override_needed (ns.fnAt g).signature with
  | some entry =>
    dsimp only
    rw [finishFn_all_lookup, pendingResolve_all_functions]
    split
    · rfl
    · exact h
  | none =>
    dsimp only
    split
    · exact h
    · split
      · exact h
      · rw [finishFn_all_lookup, prevFold_all_functions]
        split
        · rfl
        · exact h

theorem fnstep_est (ns : Namespace) (cno b : Nat) (st : FnSt) (g : Nat)
    (hbody : (ns.fnAt g).has_body = true)
    (hov : (ns.fnAt g).is_override = none) :
    alookup (functionWalkStep ns cno b st g).all_functions g = some usizeMAX := by
  unfold functionWalkStep
  dsimp only
  cases halo : alookup st.override_needed (ns.fnAt g).signature with
  | some entry =>
    dsimp only
    rw [finishFn_all_lookup]
    simp
  | none =>
    dsimp only
    rw [hov, hbody]
    simp only [Option.isSome_none, Bool.and_false, Bool.false_eq_true, if_false,
      Bool.not_true]
    rw [finishFn_all_lookup]
    simp

theorem processBase_pres (ns : Namespace) (cno f : Nat) (st : WalkSt) (b : Nat)
    (h : alookup st.all_functions f = some usizeMAX) :
    alookup (processBase ns cno st b).all_functions f = some usizeMAX := by
  exact foldl_pres (functionWalkStep ns cno b)
    (fun s : FnSt => alookup s.all_functions f = some usizeMAX)
    (ns.contractAt b).functions _
    (fun s g _ hp => fnstep_pres ns cno b f s g hp) h

/-- C5 amended: every function declared directly in a visited contract
that has a body and carries no override marker ends up in all_functions
mapped to the usize::MAX sentinel (the walk inserts every processed
function except the two skipped classes: declarations that override
nothing and bodyless first declarations). -/
theorem c5_all_functions_amended (fuel cno : Nat) (ns : Namespace) (order : List Nat)
    (hlt : cno < ns.contracts.length)
    (h : visit_bases (baseList ns) fuel cno = some order)
    (b : Nat) (hb : b ∈ order) (f : Nat) (hf : f ∈ (ns.contractAt b).functions)
    (hbody : (ns.fnAt f).has_body = true)
    (hov : (ns.fnAt f).is_override = none) :
    alookup ((layout_contract fuel cno ns).contractAt cno).all_functions f =
      some usizeMAX := by
  unfold layout_contract
  rw [h]
  show alookup ((ns.contracts.set cno _).getD cno emptyContract).all_functions f = _
  rw [getD_set_self _ _ _ _ hlt]
  show alookup (List.foldl (processBase ns cno) _ order).all_functions f = _
  refine foldl_est (processBase ns cno)
    (fun s : WalkSt => alookup s.all_functions f = some usizeMAX) order _ b hb ?_ ?_
  · intro st
    exact foldl_est (functionWalkStep ns cno b)
      (fun s : FnSt => alookup s.all_functions f = some usizeMAX)
      (ns.contractAt b).functions _ f hf
      (fun s => fnstep_est ns cno b s f hbody hov)
      (fun s g _ hp => fnstep_pres ns cno b f s g hp)
  · intro st y _ hp
    exact processBase_pres ns cno f st y hp

/-- C5 counterexample: the bodyless virtual function of the fixture is
declared in the visited contract but never recorded in all_functions,
refuting the claim that every visited function appears there. -/
theorem c5_counterexample :
    visit_bases (baseList nsBodyless) 3 0 = some [0] ∧
    0 ∈ (nsBodyless.contractAt 0).functions ∧
    (nsBodyless.fnAt 0).has_body = false ∧
    ((layout_contract 3 0 nsBodyless).contractAt 0).all_functions = [] := by decide

/-- C5 witness: the amended statement evaluated on the plain-function
fixture. -/
theorem c5_all_functions_amended_witness :
    alookup ((layout_contract 3 0 nsPlain).contractAt 0).all_functions 0 =
      some usizeMAX :=
  c5_all_functions_amended 3 0 nsPlain [0] (by decide) (by rfl) 0 (by decide) 0
    (by decide) (by rfl) (by rfl)

/-! ### C7 and C3: resolution of pending override entries -/

theorem finishFn_diags (st : FnSt) (cur : Function) (sig g : Nat) :
    (finishFn st cur sig g).diags = st.diags := by
  unfold finishFn
  split <;> rfl

theorem finishFn_override_needed (st : FnSt) (cur : Function) (sig g : Nat) :
    (finishFn st cur sig g).override_needed = st.override_needed := by
  unfold finishFn
  split <;> rfl

theorem fnstep_pending (ns : Namespace) (cno b fno : Nat) (st : FnSt)
    (entry : List (Nat × Nat))
    (hpend : alookup st.override_needed (ns.fnAt fno).signature = some entry) :
    functionWalkStep ns cno b st fno =
      finishFn (pendingResolve ns st (ns.fnAt fno) (ns.fnAt fno).signature entry)
        (ns.fnAt fno) (ns.fnAt fno).signature fno := by
  unfold functionWalkStep
  dsimp only
  rw [hpend]

/-- C7: resolving a pending entry with exactly one ancestor and no
explicit override marker emits the must-specify-override diagnostic
exactly when the sole pending ancestor's contract is not an interface,
and clears the pending entry either way. -/
theorem c7_must_specify_override (ns : Namespace) (cno b fno c0 f0 : Nat) (st : FnSt)
    (hpend : alookup st.override_needed (ns.fnAt fno).signature = some [(c0, f0)])
    (hov : (ns.fnAt fno).is_override = none)
    (hd : st.diags = []) :
    ((⟨(ns.fnAt fno).loc, .mustSpecifyOverride (ns.fnAt fno).name, []⟩ : Diagnostic) ∈
        (functionWalkStep ns cno b st fno).diags ↔
      (ns.contractAt c0).is_interface = false) ∧
    alookup (functionWalkStep ns cno b st fno).override_needed
      (ns.fnAt fno).signature = none := by
  rw [fnstep_pending ns cno b fno st [(c0, f0)] hpend, finishFn_diags,
    finishFn_override_needed]
  unfold pendingResolve
  dsimp only
  rw [hov]
  dsimp only
  constructor
  · by_cases h1 : (([(c0, f0)] : List (Nat × Nat)).filter
        (fun p => !(ns.fnAt p.2).is_virtual)).isEmpty <;>
    by_cases hint : (ns.contractAt c0).is_interface <;>
      simp [h1, hint, hd]
  · by_cases h1 : (([(c0, f0)] : List (Nat × Nat)).filter
        (fun p => !(ns.fnAt p.2).is_virtual)).isEmpty <;>
    by_cases hint : (ns.contractAt c0).is_interface <;>
      simp [h1, hint, alookup_aerase]

/-- C7 witness: the theorem evaluated on the single-pending fixture. -/
theorem c7_must_specify_override_witness :
    ((⟨(nsOvr.fnAt 3).loc, .mustSpecifyOverride (nsOvr.fnAt 3).name, []⟩ : Diagnostic) ∈
        (functionWalkStep nsOvr 2 2 stImpl 3).diags ↔
      (nsOvr.contractAt 0).is_interface = false) ∧
    alookup (functionWalkStep nsOvr 2 2 stImpl 3).override_needed
      (nsOvr.fnAt 3).signature = none :=
  c7_must_specify_override nsOvr 2 2 3 0 2 stImpl (by rfl) (by rfl) (by rfl)

theorem pendingResolve_diags_ovr (ns : Namespace) (st : FnSt) (cur : Function)
    (sig : Nat) (entry : List (Nat × Nat)) (loc : Loc) (specified : List Nat)
    (hov : cur.is_override = some (loc, specified)) (hne : specified ≠ []) :
    (pendingResolve ns st cur sig entry).diags =
      st.diags ++
      (if (entry.filter (fun p => !(ns.fnAt p.2).is_virtual)).isEmpty then []
       else [⟨cur.loc, .overridesNonVirtual cur.name,
         (entry.filter (fun p => !(ns.fnAt p.2).is_virtual)).map
           (fun p => (ns.fnAt p.2).loc)⟩]) ++
      (if (entry.map (fun p => p.1)).toFinset \ specified.toFinset ≠ ∅ ∧
          2 ≤ ((entry.map (fun p => p.1)).toFinset).card then
        [⟨loc, .missingOverrides cur.name
          ((entry.map (fun p => p.1)).toFinset \ specified.toFinset), []⟩]
       else []) ++
      (if specified.toFinset \ (entry.map (fun p => p.1)).toFinset ≠ ∅ then
        [⟨loc, .extraneousOverrides cur.name
          (specified.toFinset \ (entry.map (fun p => p.1)).toFinset), []⟩]
       else []) := by
  unfold pendingResolve
  dsimp only
  rw [hov]
  dsimp only
  have hemp : specified.isEmpty = false := by
    cases specified with
    | nil => exact absurd rfl hne
    | cons a l => rfl
  rw [hemp]
  by_cases h1 : (entry.filter (fun p => !(ns.fnAt p.2).is_virtual)).isEmpty <;>
  by_cases h2 : ((entry.map (fun p => p.1)).toFinset ⊆ specified.toFinset) <;>
  by_cases h2c : (2 ≤ ((entry.map (fun p => p.1)).toFinset).card) <;>
  by_cases h3 : (specified.toFinset ⊆ (entry.map (fun p => p.1)).toFinset) <;>
    simp [h1, h2, h2c, h3]

/-- C3 amended: with an explicit non-empty override list on a pending
signature, a missing-overrides diagnostic (naming every contract in the
needed-minus-specified set) is emitted only when the pending-ancestor
set has at least two contracts, while an extraneous-overrides diagnostic
(naming every contract in the specified-minus-needed set) is emitted
whenever that set is non-empty. -/
theorem c3_override_list_amended (ns : Namespace) (cno b fno : Nat) (st : FnSt)
    (entry : List (Nat × Nat)) (loc : Loc) (specified : List Nat)
    (hpend : alookup st.override_needed (ns.fnAt fno).signature = some entry)
    (hov : (ns.fnAt fno).is_override = some (loc, specified))
    (hne : specified ≠ []) (hd : st.diags = []) :
    (∀ co ∈ (entry.map (fun p => p.1)).toFinset \ specified.toFinset,
      2 ≤ ((entry.map (fun p => p.1)).toFinset).card →
      (⟨loc, .missingOverrides (ns.fnAt fno).name
          ((entry.map (fun p => p.1)).toFinset \ specified.toFinset), []⟩ : Diagnostic) ∈
        (functionWalkStep ns cno b st fno).diags) ∧
    (((entry.map (fun p => p.1)).toFinset).card < 2 →
      ∀ lc nm S nt, (⟨lc, .missingOverrides nm S, nt⟩ : Diagnostic) ∉
        (functionWalkStep ns cno b st fno).diags) ∧
    (∀ co ∈ specified.toFinset \ (entry.map (fun p => p.1)).toFinset,
      (⟨loc, .extraneousOverrides (ns.fnAt fno).name
          (specified.toFinset \ (entry.map (fun p => p.1)).toFinset), []⟩ : Diagnostic) ∈
        (functionWalkStep ns cno b st fno).diags) ∧
    (specified.toFinset \ (entry.map (fun p => p.1)).toFinset = ∅ →
      ∀ lc nm S nt, (⟨lc, .extraneousOverrides nm S, nt⟩ : Diagnostic) ∉
        (functionWalkStep ns cno b st fno).diags) := by
  rw [fnstep_pending ns cno b fno st entry hpend, finishFn_diags,
    pendingResolve_diags_ovr ns st (ns.fnAt fno) (ns.fnAt fno).signature entry loc
      specified hov hne, hd]
  refine ⟨?_, ?_, ?_, ?_⟩
  · intro co hco hcard
    have hmiss : ¬(entry.map (fun p => p.1)).toFinset ⊆ specified.toFinset := by
      intro hsub
      rcases Finset.mem_sdiff.mp hco with ⟨hin, hout⟩
      exact hout (hsub hin)
    by_cases h1 : (entry.filter (fun p => !(ns.fnAt p.2).is_virtual)).isEmpty <;>
    by_cases h3 : (specified.toFinset ⊆ (entry.map (fun p => p.1)).toFinset) <;>
      simp [h1, h3, hmiss, hcard]
  · intro hcard lc nm S nt hmem
    have hcard2 : ¬(2 ≤ ((entry.map (fun p => p.1)).toFinset).card) := by omega
    by_cases h1 : (entry.filter (fun p => !(ns.fnAt p.2).is_virtual)).isEmpty <;>
    by_cases h3 : (specified.toFinset ⊆ (entry.map (fun p => p.1)).toFinset) <;>
      simp [h1, h3, hcard2] at hmem
  · intro co hco
    have hext : ¬specified.toFinset ⊆ (entry.map (fun p => p.1)).toFinset := by
      intro hsub
      rcases Finset.mem_sdiff.mp hco with ⟨hin, hout⟩
      exact hout (hsub hin)
    by_cases h1 : (entry.filter (fun p => !(ns.fnAt p.2).is_virtual)).isEmpty <;>
    by_cases h2 : ((entry.map (fun p => p.1)).toFinset ⊆ specified.toFinset) <;>
    by_cases h2c : (2 ≤ ((entry.map (fun p => p.1)).toFinset).card) <;>
      simp [h1, h2, h2c, hext]
  · intro hext lc nm S nt hmem
    have hsub : specified.toFinset ⊆ (entry.map (fun p => p.1)).toFinset :=
      Finset.sdiff_eq_empty_iff_subset.mp hext
    by_cases h1 : (entry.filter (fun p => !(ns.fnAt p.2).is_virtual)).isEmpty <;>
    by_cases h2 : ((entry.map (fun p => p.1)).toFinset ⊆ specified.toFinset) <;>
    by_cases h2c : (2 ≤ ((entry.map (fun p => p.1)).toFinset).card) <;>
      simp [h1, h2, h2c, hsub] at hmem

/-- C3 counterexample: with pending-ancestor set of one contract (0) and
the explicit list naming contract 1, the needed-minus-specified set is
non-empty yet the only diagnostic emitted is the extraneous-overrides
one — no missing-overrides diagnostic is produced, refuting the claim as
stated. -/
theorem c3_counterexample :
    (0 : Nat) ∈ (([(0, 0)] : List (Nat × Nat)).map (fun p => p.1)).toFinset \
      ([1] : List Nat).toFinset ∧
    ((([(0, 0)] : List (Nat × Nat)).map (fun p => p.1)).toFinset).card = 1 ∧
    (functionWalkStep nsOvr 2 2 stOvr 1).diags =
      [⟨⟨0, 12⟩, .extraneousOverrides 61 ({1} : Finset Nat), []⟩] := by decide

/-- C3 witness: the amended statement evaluated on the wrong-list
fixture (the extraneous contract 1 is reported). -/
theorem c3_override_list_amended_witness :
    (⟨⟨0, 12⟩, .extraneousOverrides (nsOvr.fnAt 1).name
        (([1] : List Nat).toFinset \
          (([(0, 0)] : List (Nat × Nat)).map (fun p => p.1)).toFinset), []⟩ : Diagnostic) ∈
      (functionWalkStep nsOvr 2 2 stOvr 1).diags :=
  (c3_override_list_amended nsOvr 2 2 1 stOvr [(0, 0)] ⟨0, 12⟩ [1] (by rfl) (by rfl)
    (by decide) (by rfl)).2.2.1 1 (by decide)

/-! ### C4: base-constructor argument completeness diagnostics -/

/-- C4: a concrete contract inheriting a base whose constructor requires
arguments and declaring a constructor that supplies them on no path
yields exactly one missing-base-constructor-arguments diagnostic (and no
other diagnostic); supplying the same base's arguments both
modifier-style and in the base list yields exactly one
duplicate-base-argument diagnostic (and no other diagnostic) — the
recursively collected diagnostics being deduplicated by structural
equality before the merge into the namespace. -/
theorem c4_base_constructor_args :
    (check_base_args 20 1 nsMiss).diagnostics.countP
        (fun d => match d.kind with
          | .missingBaseConstructorArguments _ => true
          | _ => false) = 1 ∧
    (check_base_args 20 1 nsMiss).diagnostics.length = 1 ∧
    (cBaseNeedsArgs.constructor_needs_arguments nsMiss = true) ∧
    (check_base_args 20 1 nsDup).diagnostics.countP
        (fun d => match d.kind with
          | .duplicateBaseArgument _ => true
          | _ => false) = 1 ∧
    (check_base_args 20 1 nsDup).diagnostics.length = 1 := by decide

/-- C9 witness: the amended statement evaluated on the fixture. -/
theorem c9_relayout_appends_witness :
    ((layout_contract 3 0 nsVar).contractAt 0).layout =
      (nsVar.contractAt 0).layout ++
        (storFold (fun c => (nsVar.contractAt c).vars) nsVar.target [0]
          ⟨initialSlot nsVar.target, [], false⟩).layout ∧
    ((layout_contract 3 0 (layout_contract 3 0 nsVar)).contractAt 0).layout =
      (nsVar.contractAt 0).layout ++
        (storFold (fun c => (nsVar.contractAt c).vars) nsVar.target [0]
          ⟨initialSlot nsVar.target, [], false⟩).layout ++
        (storFold (fun c => (nsVar.contractAt c).vars) nsVar.target [0]
          ⟨initialSlot nsVar.target, [], false⟩).layout :=
  c9_relayout_appends 3 0 nsVar [0] (by decide) (by rfl)

end Solang
